import Mathlib

/-!
Verification of the Namite username-probing bot against its natural-language
specification.  The Python sources (username_generator.py,
adaptive_learning.py, roblox_api.py, database.py) are shallowly embedded:
pure logic becomes Lean functions, module/object state becomes explicit state
records, Python floats are modelled as exact rationals, and randomness,
the system clock, the network and the database are modelled as oracles over
which the theorems quantify.
-/

namespace Namite

/-! ### Python-modelling primitives -/

/-- Truncation toward zero: the semantics of Python `int()` applied to a
float or to an exact rational. -/
def pyTrunc (q : Rat) : Int :=
  if q < 0 then -(Int.floor (-q)) else Int.floor q

/-- A deterministic oracle standing for the stream of values produced by the
`random` module: `f` supplies an arbitrary natural number for every draw and
`k` counts the draws made so far.  Quantifying over all oracles covers every
possible sequence of random choices. -/
structure Rng where
  f : Nat → Nat
  k : Nat

/-- Consume one value from the randomness oracle. -/
def Rng.next (r : Rng) : Nat × Rng := (r.f r.k, { r with k := r.k + 1 })

/-- Generator computations: they consume randomness and may raise a Python
exception, modelled as `Except.error ()` (for example `ValueError` from
`random.randint` when the requested range is empty). -/
def Gen (α : Type) : Type := Rng → Except Unit α × Rng

instance : Monad Gen where
  pure a := fun r => (Except.ok a, r)
  bind x f := fun r =>
    match x r with
    | (Except.ok a, r') => f a r'
    | (Except.error e, r') => (Except.error e, r')

/-- Raise a Python exception inside a generator computation. -/
def genFail {α : Type} : Gen α := fun r => (Except.error (), r)

/-- Draw one raw value from the randomness oracle. -/
def draw : Gen Nat := fun r => (Except.ok (r.next).1, (r.next).2)

/-- Lift an exception-free random computation into `Gen`. -/
def Gen.lift {α : Type} (g : Rng → α × Rng) : Gen α := fun r =>
  (Except.ok (g r).1, (g r).2)

/-- `random.randint a b`: an arbitrary value in `[a, b]` chosen by the
oracle; raises `ValueError` when `b < a`. -/
def randint (a b : Int) : Gen Int := do
  if b < a then genFail
  else
    let n ← draw
    pure (a + ((n % (b - a + 1).toNat : Nat) : Int))

/-- `random.choice pool` (total variant): the pools passed at every call
site in the source are constant nonempty character lists, so the Python
`IndexError` on an empty pool cannot occur there. -/
def randChoiceT (pool : List Char) (r : Rng) : Char × Rng :=
  (pool.getD ((r.next).1 % pool.length) 'a', (r.next).2)

/-- `random.choice pool` inside `Gen`. -/
def randChoice (pool : List Char) : Gen Char := Gen.lift (randChoiceT pool)

/-- `random.choices pool (k := k)`: `k` independent draws from `pool`. -/
def randChoicesT (pool : List Char) : Nat → Rng → List Char × Rng
  | 0, r => ([], r)
  | Nat.succ k, r =>
    let hd := randChoiceT pool r
    let tl := randChoicesT pool k hd.2
    (hd.1 :: tl.1, tl.2)

/-- `random.choices` inside `Gen`. -/
def randChoices (pool : List Char) (k : Nat) : Gen (List Char) :=
  Gen.lift (randChoicesT pool k)

/-- An arbitrary boolean draw, modelling the comparison of `random.random()`
against a probability threshold; every outcome is reachable for some oracle,
so quantifying over oracles covers both branches regardless of the threshold
value. -/
def coinT (r : Rng) : Bool × Rng := ((r.next).1 % 2 == 0, (r.next).2)

/-- Boolean draw inside `Gen`. -/
def coin : Gen Bool := Gen.lift coinT

/-! ### Character classes (the `string` module constants) -/

/-- `string.ascii_lowercase`. -/
def asciiLowercase : List Char := "abcdefghijklmnopqrstuvwxyz".toList

/-- `string.ascii_uppercase`. -/
def asciiUppercase : List Char := "ABCDEFGHIJKLMNOPQRSTUVWXYZ".toList

/-- `string.ascii_letters`. -/
def asciiLetters : List Char := asciiLowercase ++ asciiUppercase

/-- `string.digits`. -/
def digitChars : List Char := "0123456789".toList

/-- `string.ascii_letters + string.digits`, the base sampling pool. -/
def lettersAndDigits : List Char := asciiLetters ++ digitChars

/-- The vowels used by `generate_word_like`. -/
def vowelChars : List Char := "aeiouAEIOU".toList

/-- The consonants used by `generate_word_like`:
letters that are not vowels, in order. -/
def consonantChars : List Char :=
  asciiLetters.filter (fun c => !(vowelChars.contains c))

/-- Membership in `string.ascii_letters + string.digits + underscore`, the
character test of `validate_username`. -/
def isAllowedChar (c : Char) : Bool := (lettersAndDigits ++ ['_']).contains c

/-- Python `str.isdigit()` restricted to the ASCII strings this program
builds: nonempty and consisting of decimal digits only. -/
def pyIsdigit (l : List Char) : Bool := !l.isEmpty && l.all (fun c => c.isDigit)

/-! ### username_generator.py -/

/-- `validate_username` (username_generator.py, lines 309-339), on the
character-list model of Python strings. -/
def validate_username (u : List Char) : Bool :=
  if u.length < 3 || u.length > 20 then false
  else if !(u.all isAllowedChar) then false
  else if u.head? == some '_' || u.getLast? == some '_' then false
  else if u.count '_' > 1 then false
  else if pyIsdigit (u.filter (fun c => c != '_')) then false
  else true

/-- One alternating consonant/vowel run starting at index `i`: even offsets
take a consonant, odd offsets a vowel (the syllable body and the final fill
of `generate_word_like`). -/
def altRunT : Nat → Nat → Rng → List Char × Rng
  | _, 0, r => ([], r)
  | i, Nat.succ k, r =>
    let pick :=
      if i % 2 == 0 then randChoiceT consonantChars r else randChoiceT vowelChars r
    let rest := altRunT (i + 1) k pick.2
    (pick.1 :: rest.1, rest.2)

/-- The `while remaining_length > 3` syllable loop of `generate_word_like`
for lengths above 8, including the final fill of the leftover characters.
Each syllable takes `min (randint 3 5) remaining` characters. -/
def syllableLoop (remaining : Nat) (r : Rng) : List Char × Rng :=
  if remaining > 3 then
    let syl_len := min (3 + (r.next).1 % 3) remaining
    let syl := altRunT 0 syl_len (r.next).2
    let rest := syllableLoop (remaining - syl_len) syl.2
    (syl.1 ++ rest.1, rest.2)
  else
    altRunT 0 remaining r
termination_by remaining
decreasing_by
  simp_wf
  omega

/-- The short-length branch of `generate_word_like`: consonant at even
indices, otherwise a coin (modelling `random.random() < 0.2`, only drawn at
odd indices because Python's `or` short-circuits) deciding consonant versus
vowel. -/
def shortAltT : Nat → Nat → Rng → List Char × Rng
  | _, 0, r => ([], r)
  | i, Nat.succ k, r =>
    if i % 2 == 0 then
      let pick := randChoiceT consonantChars r
      let rest := shortAltT (i + 1) k pick.2
      (pick.1 :: rest.1, rest.2)
    else
      let flip := coinT r
      let pick :=
        if flip.1 then randChoiceT consonantChars flip.2
        else randChoiceT vowelChars flip.2
      let rest := shortAltT (i + 1) k pick.2
      (pick.1 :: rest.1, rest.2)

/-- The capitalization loop of `generate_word_like`: `caps_count` times,
uppercase the character at `randint 1 (len - 1)`.  Every call site has
`chars.length ≥ 7`, so the `randint` range is valid and is modelled
totally. -/
def capsLoopT : Nat → List Char → Rng → List Char × Rng
  | 0, chars, r => (chars, r)
  | Nat.succ k, chars, r =>
    let pos := 1 + (r.next).1 % (chars.length - 1)
    capsLoopT k (chars.set pos ((chars.getD pos 'a').toUpper)) (r.next).2

/-- `generate_word_like` (username_generator.py, lines 66-127).  All the
internal `randint` calls have valid ranges at the points where they are
reached, so the function is modelled without an exception channel. -/
def generate_word_like (length : Int) (r : Rng) : List Char × Rng :=
  let base :=
    if length > 8 then syllableLoop length.toNat r
    else shortAltT 0 length.toNat r
  if length > 6 then
    let flip := coinT base.2
    if flip.1 then
      let caps_count := min (1 + ((flip.2).next).1 % 2) (base.1.length - 1)
      capsLoopT caps_count base.1 ((flip.2).next).2
    else (base.1, flip.2)
  else base

/-- Pattern: `random.choices(pool, k = randint a b)`. -/
def patChoices (pool : List Char) (a b : Int) : Gen (List Char) := do
  let k ← randint a b
  randChoices pool k.toNat

/-- Pattern: `generate_word_like (randint a b)`. -/
def patWordLike (a b : Int) : Gen (List Char) := do
  let k ← randint a b
  Gen.lift (generate_word_like k)

/-- The underscore pattern of the short-range branch of
`generate_username_with_length`: 1-2 characters, an underscore, then
`randint 1 (max_length - 2)` characters. -/
def patUnderscoreShort (maxL : Int) : Gen (List Char) := do
  let k1 ← randint 1 2
  let p1 ← randChoices lettersAndDigits k1.toNat
  let k2 ← randint 1 (maxL - 2)
  let p2 ← randChoices lettersAndDigits k2.toNat
  pure (p1 ++ '_' :: p2)

/-- The underscore pattern of the long-range branch:
`randint 2 (max_length // 2)` characters, an underscore, then
`randint (min_length - 3) (max_length // 2)` characters; the second
`randint` can raise `ValueError` for large `min_length`. -/
def patUnderscoreLong (minL maxL : Int) : Gen (List Char) := do
  let k1 ← randint 2 (Int.ediv maxL 2)
  let p1 ← randChoices lettersAndDigits k1.toNat
  let k2 ← randint (minL - 3) (Int.ediv maxL 2)
  let p2 ← randChoices lettersAndDigits k2.toNat
  pure (p1 ++ '_' :: p2)

/-- The `pattern_options` list built inside `generate_username_with_length`
for the current length range. -/
def patternOptions (minL maxL : Int) : List (Gen (List Char)) :=
  let base := [patChoices lettersAndDigits minL maxL,
               patWordLike minL maxL,
               patChoices asciiLetters minL maxL]
  if minL ≤ 4 && maxL ≤ 6 then
    if maxL ≥ 5 then base ++ [patUnderscoreShort maxL] else base
  else
    if maxL ≥ 5 then base ++ [patUnderscoreLong minL maxL] else base

/-- `random.choice(pattern_options)` followed by running the pattern. -/
def pickPattern (minL maxL : Int) : Gen (List Char) := do
  let n ← draw
  let opts := patternOptions minL maxL
  opts.getD (n % opts.length) (pure [])

/-- First statement of the edge repair: if the candidate starts with an
underscore, overwrite position 0 with a random letter. -/
def repairHead (l : List Char) (r : Rng) : List Char × Rng :=
  if l.head? == some '_' then
    (l.set 0 (randChoiceT asciiLetters r).1, (randChoiceT asciiLetters r).2)
  else (l, r)

/-- Second statement of the edge repair: if the (possibly already updated)
candidate ends with an underscore, overwrite the last position with a random
letter. -/
def repairLast (l : List Char) (r : Rng) : List Char × Rng :=
  if l.getLast? == some '_' then
    (l.set (l.length - 1) (randChoiceT asciiLetters r).1,
      (randChoiceT asciiLetters r).2)
  else (l, r)

/-- The edge repair of `generate_username_with_length`: when the candidate
starts or ends with an underscore, replace the offending ends with random
letters (head first, then the last character of the updated list, as in the
source). -/
def repairEdges (l : List Char) (r : Rng) : List Char × Rng :=
  if l.head? == some '_' || l.getLast? == some '_' then
    repairLast (repairHead l r).1 (repairHead l r).2
  else (l, r)

/-- Walk the character list replacing every underscore whose index differs
from `first` by a random letter (the body of the duplicate-underscore
repair). -/
def replaceExtras (first : Nat) : Nat → List Char → Rng → List Char × Rng
  | _, [], r => ([], r)
  | i, c :: tl, r =>
    if i ≠ first && c == '_' then
      let pick := randChoiceT asciiLetters r
      let rest := replaceExtras first (i + 1) tl pick.2
      (pick.1 :: rest.1, rest.2)
    else
      let rest := replaceExtras first (i + 1) tl r
      (c :: rest.1, rest.2)

/-- The duplicate-underscore repair: when more than one underscore is
present, keep the first and replace the others with random letters. -/
def repairDup (l : List Char) (r : Rng) : List Char × Rng :=
  if l.count '_' > 1 then
    replaceExtras (l.indexOf '_') 0 l r
  else (l, r)

/-- The all-numeric repair: if the candidate with underscores removed is all
digits, overwrite one random non-underscore position with a random
letter.  Identical code appears in `generate_username_with_length`
(lines 203-210) and in the 4-character branch of `generate_username`
(lines 287-294). -/
def repairNumeric (l : List Char) (r : Rng) : List Char × Rng :=
  if pyIsdigit (l.filter (fun c => c != '_')) then
    let positions := (List.range l.length).filter (fun i => l.getD i ' ' != '_')
    if positions.isEmpty then (l, r)
    else
      let pos := positions.getD ((r.next).1 % positions.length) 0
      (l.set pos (randChoiceT asciiLetters (r.next).2).1,
        (randChoiceT asciiLetters (r.next).2).2)
  else (l, r)

/-- One iteration of the 15-attempt loop of `generate_username_with_length`:
pick and run a pattern, discard the candidate (`none`) when its length is
outside the requested range, otherwise apply the three repairs. -/
def genAttempt (minL maxL : Int) : Gen (Option (List Char)) := do
  let u ← pickPattern minL maxL
  if (u.length : Int) < minL || (u.length : Int) > maxL then
    pure none
  else
    let u1 ← Gen.lift (repairEdges u)
    let u2 ← Gen.lift (repairDup u1)
    let u3 ← Gen.lift (repairNumeric u2)
    pure (some u3)

/-- The retry loop of `generate_username_with_length` with `fuel` attempts
remaining; at zero attempts the fallback candidate
(`fallback_length - 1` random letters followed by a random digit) is
produced. -/
def genLoop (minL maxL : Int) (cooldown : List Char → Bool) : Nat → Gen (List Char)
  | 0 => do
    let L ← randint minL maxL
    let s ← randChoices asciiLetters (L.toNat - 1)
    let d ← randint 0 9
    pure (s ++ [digitChars.getD d.toNat '0'])
  | Nat.succ k => do
    let u? ← genAttempt minL maxL
    match u? with
    | none => genLoop minL maxL cooldown k
    | some u => if cooldown u then genLoop minL maxL cooldown k else pure u

/-- `generate_username_with_length` (username_generator.py, lines 129-221).
The database lookup `is_username_in_cooldown` is an oracle predicate. -/
def generate_username_with_length (min0 max0 : Int) (cooldown : List Char → Bool) :
    Gen (List Char) :=
  let minL := max 3 (min min0 20)
  let maxL := max minL (min max0 20)
  genLoop minL maxL cooldown 15

/-- The 3-character underscore path of `generate_username`: a letter/digit,
an underscore, and a letter/digit, with the last character forced to a
letter when both ends are digits. -/
def genThreeCharUnderscore : Gen (List Char) := do
  let first ← randChoice lettersAndDigits
  let last0 ← randChoice lettersAndDigits
  let last ←
    if last0.isDigit && first.isDigit then randChoice asciiLetters else pure last0
  pure [first, '_', last]

/-- One character of the 4-character underscore path: an underscore at
`pos`, otherwise a digit-versus-letter coin and an uppercase-versus-lowercase
coin (the adaptive probabilities only bias the coins, which the oracle
already covers). -/
def genFourChar (pos : Nat) : Nat → Nat → Gen (List Char)
  | _, 0 => pure []
  | i, Nat.succ k => do
    let c ←
      if i == pos then pure '_'
      else do
        let d ← coin
        if d then randChoice digitChars
        else do
          let uc ← coin
          if uc then randChoice asciiUppercase else randChoice asciiLowercase
    let rest ← genFourChar pos (i + 1) k
    pure (c :: rest)

/-- The body of `generate_username` (username_generator.py, lines 235-301):
pick a length from the adaptive distribution (the oracle chooses which key,
covering every choice `random.choices` can make), possibly take one of the
two short underscore paths, and otherwise delegate to
`generate_username_with_length chosen chosen`. -/
def generate_username_body (dist : List (Int × Rat)) (cooldown : List Char → Bool) :
    Gen (List Char) := do
  if dist.isEmpty then
    generate_username_with_length 3 6 cooldown
  else
    let n ← draw
    let chosen := (dist.getD (n % dist.length) (3, 0)).1
    if chosen ≤ 4 then
      let b ← coin
      if b then
        if chosen == 3 then genThreeCharUnderscore
        else do
          let b2 ← coin
          let chars ← genFourChar (if b2 then 1 else 2) 0 4
          Gen.lift (repairNumeric chars)
      else generate_username_with_length chosen chosen cooldown
    else generate_username_with_length chosen chosen cooldown

/-- `generate_username` (username_generator.py, lines 223-307).  The whole
body runs under `try/except Exception`, whose handler falls back to
`generate_username_with_length 3 6`; an oracle bit accounts for exceptions
the model does not produce itself (such as `ValueError` from
`random.choices` on a degenerate weight vector), and exceptions raised by
the modelled body (`ValueError` from `randint` inside a pattern) are caught
the same way. -/
def generate_username (dist : List (Int × Rat)) (cooldown : List Char → Bool) :
    Gen (List Char) := fun r =>
  if (coinT r).1 then generate_username_with_length 3 6 cooldown (coinT r).2
  else
    match generate_username_body dist cooldown (coinT r).2 with
    | (Except.ok u, r1) => (Except.ok u, r1)
    | (Except.error _, r1) => generate_username_with_length 3 6 cooldown r1

/-! ### Lemmas about the generator embedding -/

theorem Gen.pure_apply {α : Type} (a : α) (r : Rng) :
    (pure a : Gen α) r = (Except.ok a, r) := rfl

theorem Gen.bind_def {α β : Type} (x : Gen α) (f : α → Gen β) :
    x >>= f = fun r =>
      match x r with
      | (Except.ok a, r') => f a r'
      | (Except.error e, r') => (Except.error e, r') := rfl

theorem Gen.bind_apply {α β : Type} (x : Gen α) (f : α → Gen β) (r : Rng) :
    (x >>= f) r =
      match x r with
      | (Except.ok a, r') => f a r'
      | (Except.error e, r') => (Except.error e, r') := rfl

theorem Gen.bind_ok_iff {α β : Type} {x : Gen α} {f : α → Gen β} {r r' : Rng} {b : β} :
    (x >>= f) r = (Except.ok b, r') ↔
      ∃ a r₁, x r = (Except.ok a, r₁) ∧ f a r₁ = (Except.ok b, r') := by
  constructor
  · intro h'
    rw [Gen.bind_apply] at h'
    rcases h : x r with ⟨e, r₁⟩
    rw [h] at h'
    cases e with
    | ok a => exact ⟨a, r₁, rfl, h'⟩
    | error e => simp [Prod.ext_iff] at h'
  · rintro ⟨a, r₁, h₁, h₂⟩
    rw [Gen.bind_apply, h₁]
    exact h₂

theorem Gen.lift_apply {α : Type} (g : Rng → α × Rng) (r : Rng) :
    Gen.lift g r = (Except.ok (g r).1, (g r).2) := by
  unfold Gen.lift
  rcases g r with ⟨a, r'⟩
  rfl

/-- A value picked by `getD` at a reduced index belongs to a nonempty
list. -/
theorem getD_mod_mem {α : Type} [Inhabited α] (l : List α) (n : Nat) (d : α)
    (h : l ≠ []) : l.getD (n % l.length) d ∈ l := by
  have hl : 0 < l.length := List.length_pos.mpr h
  have hlt : n % l.length < l.length := Nat.mod_lt _ hl
  rw [List.getD_eq_getElem l d hlt]
  exact List.getElem_mem hlt

theorem randChoiceT_mem (pool : List Char) (h : pool ≠ []) (r : Rng) :
    (randChoiceT pool r).1 ∈ pool := by
  unfold randChoiceT Rng.next
  exact getD_mod_mem pool _ 'a' h

theorem randChoicesT_succ (pool : List Char) (k : Nat) (r : Rng) :
    randChoicesT pool (k + 1) r =
      ((randChoiceT pool r).1 :: (randChoicesT pool k (randChoiceT pool r).2).1,
        (randChoicesT pool k (randChoiceT pool r).2).2) := by
  rw [randChoicesT]

theorem randChoicesT_mem (pool : List Char) (h : pool ≠ []) :
    ∀ (k : Nat) (r : Rng), ∀ c ∈ (randChoicesT pool k r).1, c ∈ pool := by
  intro k
  induction k with
  | zero => intro r c hc; simp [randChoicesT] at hc
  | succ k ih =>
    intro r c hc
    rw [randChoicesT_succ] at hc
    simp only [List.mem_cons] at hc
    rcases hc with hc | hc
    · subst hc
      exact randChoiceT_mem pool h r
    · exact ih _ c hc

/-! Character-class facts, decided on the concrete pools. -/

theorem letters_nonempty : asciiLetters ≠ [] := by decide

theorem lettersAndDigits_nonempty : lettersAndDigits ≠ [] := by decide

theorem letter_allowed : ∀ c ∈ asciiLetters, isAllowedChar c = true := by decide

theorem lettersAndDigits_allowed : ∀ c ∈ lettersAndDigits, isAllowedChar c = true := by
  decide

theorem underscore_allowed : isAllowedChar '_' = true := by decide

theorem letter_not_underscore : ∀ c ∈ asciiLetters, c ≠ '_' := by decide

theorem lettersAndDigits_not_underscore : ∀ c ∈ lettersAndDigits, c ≠ '_' := by decide

theorem letter_not_digit : ∀ c ∈ asciiLetters, c.isDigit = false := by decide

theorem consonant_letter : ∀ c ∈ consonantChars, c ∈ asciiLetters := by decide

theorem vowel_letter : ∀ c ∈ vowelChars, c ∈ asciiLetters := by decide

theorem digit_allowed : ∀ c ∈ digitChars, isAllowedChar c = true := by decide

theorem upper_letter : ∀ c ∈ asciiUppercase, c ∈ asciiLetters := by decide

theorem lower_letter : ∀ c ∈ asciiLowercase, c ∈ asciiLetters := by decide

theorem digit_mem_lettersAndDigits : ∀ c ∈ digitChars, c ∈ lettersAndDigits := by decide

theorem toUpper_letter : ∀ c ∈ asciiLetters, c.toUpper ∈ asciiLetters := by decide

/-- Pointwise replacement: the output has the same length as the input and
every position either keeps its old character or holds an ASCII letter.
All three candidate repairs produce outputs in this relation. -/
def PtwiseRepl (l l' : List Char) : Prop :=
  List.Forall₂ (fun a b => b = a ∨ b ∈ asciiLetters) l l'

theorem PtwiseRepl.refl (l : List Char) : PtwiseRepl l l := by
  induction l with
  | nil => exact List.Forall₂.nil
  | cons a t ih => exact List.Forall₂.cons (Or.inl rfl) ih

theorem PtwiseRepl.trans {l₁ l₂ l₃ : List Char} (h₁ : PtwiseRepl l₁ l₂)
    (h₂ : PtwiseRepl l₂ l₃) : PtwiseRepl l₁ l₃ := by
  induction h₁ generalizing l₃ with
  | nil => exact h₂
  | cons hab _ ih =>
    cases h₂ with
    | cons hbc htail =>
      refine List.Forall₂.cons ?_ (ih htail)
      rcases hbc with hbc | hbc
      · subst hbc; exact hab
      · exact Or.inr hbc

theorem PtwiseRepl.length_eq {l l' : List Char} (h : PtwiseRepl l l') :
    l'.length = l.length := (List.Forall₂.length_eq h).symm

theorem PtwiseRepl.set_letter {l : List Char} {c : Char} (hc : c ∈ asciiLetters)
    (i : Nat) : PtwiseRepl l (l.set i c) := by
  induction l generalizing i with
  | nil => exact List.Forall₂.nil
  | cons a t ih =>
    cases i with
    | zero => exact List.Forall₂.cons (Or.inr hc) (PtwiseRepl.refl t)
    | succ i => exact List.Forall₂.cons (Or.inl rfl) (ih i)

theorem PtwiseRepl.allowed {l l' : List Char} (h : PtwiseRepl l l')
    (hall : ∀ c ∈ l, isAllowedChar c = true) :
    ∀ c ∈ l', isAllowedChar c = true := by
  induction h with
  | nil => intro c hc; cases hc
  | @cons a b t t' hab _ ih =>
    intro c hc
    rcases List.mem_cons.mp hc with hc | hc
    · subst hc
      rcases hab with hab | hab
      · subst hab; exact hall _ (List.mem_cons_self _ _)
      · exact letter_allowed c hab
    · exact ih (fun x hx => hall x (List.mem_cons_of_mem _ hx)) c hc

theorem PtwiseRepl.count_underscore {l l' : List Char} (h : PtwiseRepl l l') :
    l'.count '_' ≤ l.count '_' := by
  induction h with
  | nil => exact Nat.le_refl _
  | @cons a b t t' hab _ ih =>
    rw [List.count_cons, List.count_cons]
    rcases hab with hab | hab
    · subst hab; omega
    · have hbne : b ≠ '_' := letter_not_underscore b hab
      simp only [beq_iff_eq]
      rcases Decidable.em (a = '_') with ha | ha <;> simp [ha, hbne] <;> omega

theorem PtwiseRepl.head_ne {l l' : List Char} (h : PtwiseRepl l l')
    (hh : l.head? ≠ some '_') : l'.head? ≠ some '_' := by
  cases h with
  | nil => simp
  | @cons a b t t' hab htail =>
    simp only [List.head?_cons] at hh ⊢
    rcases hab with hab | hab
    · subst hab; exact hh
    · exact fun hEq => letter_not_underscore b hab (Option.some_inj.mp hEq)

theorem PtwiseRepl.getLast_ne {l l' : List Char} (h : PtwiseRepl l l')
    (hh : l.getLast? ≠ some '_') : l'.getLast? ≠ some '_' := by
  induction h with
  | nil => simp
  | @cons a b t t' hab htail ih =>
    cases htail with
    | nil =>
      simp only [List.getLast?_singleton] at hh ⊢
      rcases hab with hab | hab
      · subst hab; exact hh
      · exact fun hEq => letter_not_underscore b hab (Option.some_inj.mp hEq)
    | @cons a' b' t₂ t₂' hab' htail₂ =>
      rw [List.getLast?_cons_cons] at hh ⊢
      exact ih hh

/-! Facts about `List.set` used by the repairs. -/

theorem getD_set_self (l : List Char) (c a : Char) (i : Nat) (h : i < l.length) :
    (l.set i c).getD i a = c := by
  have h' : i < (l.set i c).length := by simpa using h
  rw [List.getD_eq_getElem _ _ h']
  exact List.getElem_set_self h'

theorem mem_set_letter {l : List Char} {c x : Char} {i : Nat}
    (hl : ∀ y ∈ l, y ∈ asciiLetters) (hc : c ∈ asciiLetters) :
    x ∈ l.set i c → x ∈ asciiLetters := by
  intro hx
  rcases List.mem_or_eq_of_mem_set hx with hx | hx
  · exact hl x hx
  · subst hx; exact hc

theorem head?_set_zero {l : List Char} (h : l ≠ []) (c : Char) :
    (l.set 0 c).head? = some c := by
  cases l with
  | nil => simp at h
  | cons a t => rfl

theorem head?_set_pos (l : List Char) (c : Char) {i : Nat} (h : 0 < i) :
    (l.set i c).head? = l.head? := by
  cases l with
  | nil => rfl
  | cons a t =>
    cases i with
    | zero => omega
    | succ j => rfl

theorem getLast?_set_last {l : List Char} (h : l ≠ []) (c : Char) :
    (l.set (l.length - 1) c).getLast? = some c := by
  induction l with
  | nil => simp at h
  | cons a t ih =>
    cases t with
    | nil => rfl
    | cons b t' =>
      have hlen : (a :: b :: t').length - 1 = (b :: t').length - 1 + 1 := by
        simp [List.length_cons]
      rw [hlen]
      rw [List.set_cons_succ]
      have htne : (b :: t').set ((b :: t').length - 1) c ≠ [] := by
        intro hcontra
        have := congrArg List.length hcontra
        simp at this
      rcases hset : (b :: t').set ((b :: t').length - 1) c with _ | ⟨x, xs⟩
      · exact absurd hset htne
      · rw [List.getLast?_cons_cons]
        rw [← hset]
        exact ih (by simp)

/-! `generate_word_like` produces letters only. -/

theorem altRunT_mem : ∀ (k i : Nat) (r : Rng), ∀ c ∈ (altRunT i k r).1, c ∈ asciiLetters := by
  intro k
  induction k with
  | zero => intro i r c hc; simp [altRunT] at hc
  | succ k ih =>
    intro i r c hc
    rw [altRunT] at hc
    simp only [List.mem_cons] at hc
    rcases hc with rfl | hc
    · by_cases hpar : (i % 2 == 0 : Bool)
      · rw [if_pos hpar]
        exact consonant_letter _ (randChoiceT_mem consonantChars (by decide) r)
      · rw [if_neg hpar]
        exact vowel_letter _ (randChoiceT_mem vowelChars (by decide) r)
    · exact ih (i + 1) _ c hc

theorem syllableLoop_mem (remaining : Nat) (r : Rng) :
    ∀ c ∈ (syllableLoop remaining r).1, c ∈ asciiLetters := by
  induction remaining using Nat.strong_induction_on generalizing r with
  | _ remaining ih =>
    intro c hc
    rw [syllableLoop] at hc
    by_cases hrem : remaining > 3
    · rw [if_pos hrem] at hc
      simp only [List.mem_append] at hc
      rcases hc with hc | hc
      · exact altRunT_mem _ 0 _ c hc
      · have hlt : remaining - min (3 + (r.next).1 % 3) remaining < remaining := by
          omega
        exact ih _ hlt _ c hc
    · rw [if_neg hrem] at hc
      exact altRunT_mem remaining 0 r c hc

theorem shortAltT_mem :
    ∀ (k i : Nat) (r : Rng), ∀ c ∈ (shortAltT i k r).1, c ∈ asciiLetters := by
  intro k
  induction k with
  | zero => intro i r c hc; simp [shortAltT] at hc
  | succ k ih =>
    intro i r c hc
    rw [shortAltT] at hc
    by_cases hpar : (i % 2 == 0 : Bool)
    · rw [if_pos hpar] at hc
      simp only [List.mem_cons] at hc
      rcases hc with rfl | hc
      · exact consonant_letter _ (randChoiceT_mem consonantChars (by decide) r)
      · exact ih (i + 1) _ c hc
    · rw [if_neg hpar] at hc
      simp only [List.mem_cons] at hc
      rcases hc with rfl | hc
      · by_cases hb : ((coinT r).1 : Bool)
        · rw [if_pos hb]
          exact consonant_letter _ (randChoiceT_mem consonantChars (by decide) _)
        · rw [if_neg hb]
          exact vowel_letter _ (randChoiceT_mem vowelChars (by decide) _)
      · exact ih (i + 1) _ c hc

theorem capsLoopT_mem : ∀ (k : Nat) (chars : List Char) (r : Rng),
    (∀ c ∈ chars, c ∈ asciiLetters) →
      ∀ c ∈ (capsLoopT k chars r).1, c ∈ asciiLetters := by
  intro k
  induction k with
  | zero => intro chars r hch c hc; exact hch c hc
  | succ k ih =>
    intro chars r hch c hc
    rw [capsLoopT] at hc
    refine ih _ _ ?_ c hc
    intro y hy
    refine mem_set_letter hch ?_ hy
    have hd : chars.getD (1 + (r.next).1 % (chars.length - 1)) 'a' ∈ asciiLetters := by
      by_cases hlen : 1 + (r.next).1 % (chars.length - 1) < chars.length
      · rw [List.getD_eq_getElem _ _ hlen]
        exact hch _ (List.getElem_mem hlen)
      · rw [List.getD_eq_default _ _ (by omega)]
        decide
    exact toUpper_letter _ hd

theorem generate_word_like_mem (length : Int) (r : Rng) :
    ∀ c ∈ (generate_word_like length r).1, c ∈ asciiLetters := by
  intro c hc
  rw [generate_word_like] at hc
  have hbase : ∀ y ∈ (if length > 8 then syllableLoop length.toNat r
      else shortAltT 0 length.toNat r).1, y ∈ asciiLetters := by
    intro y hy
    by_cases h8 : length > 8
    · rw [if_pos h8] at hy
      exact syllableLoop_mem length.toNat r y hy
    · rw [if_neg h8] at hy
      exact shortAltT_mem length.toNat 0 r y hy
  by_cases h6 : length > 6
  · rw [if_pos h6] at hc
    by_cases hb : (((coinT (if length > 8 then syllableLoop length.toNat r
        else shortAltT 0 length.toNat r).2).1) : Bool)
    · rw [if_pos hb] at hc
      exact capsLoopT_mem _ _ _ hbase c hc
    · rw [if_neg hb] at hc
      exact hbase c hc
  · rw [if_neg h6] at hc
    exact hbase c hc

/-! The three repairs: pointwise-replacement facts and their postconditions. -/

theorem repairHead_ptwise (l : List Char) (r : Rng) :
    PtwiseRepl l (repairHead l r).1 := by
  rw [repairHead]
  split_ifs with h
  · exact PtwiseRepl.set_letter (randChoiceT_mem asciiLetters (by decide) r) 0
  · exact PtwiseRepl.refl l

theorem repairLast_ptwise (l : List Char) (r : Rng) :
    PtwiseRepl l (repairLast l r).1 := by
  rw [repairLast]
  split_ifs with h
  · exact PtwiseRepl.set_letter (randChoiceT_mem asciiLetters (by decide) r) _
  · exact PtwiseRepl.refl l

theorem repairHead_head (l : List Char) (r : Rng) :
    (repairHead l r).1.head? ≠ some '_' := by
  rw [repairHead]
  split_ifs with h
  · have hlne : l ≠ [] := by
      intro hnil; subst hnil; simp at h
    rw [head?_set_zero hlne]
    intro hEq
    exact letter_not_underscore _ (randChoiceT_mem asciiLetters (by decide) r)
      (Option.some_inj.mp hEq)
  · intro hEq
    simp [hEq] at h

theorem repairLast_getLast (l : List Char) (r : Rng) :
    (repairLast l r).1.getLast? ≠ some '_' := by
  rw [repairLast]
  split_ifs with h
  · have hlne : l ≠ [] := by
      intro hnil; subst hnil; simp at h
    rw [getLast?_set_last hlne]
    intro hEq
    exact letter_not_underscore _ (randChoiceT_mem asciiLetters (by decide) r)
      (Option.some_inj.mp hEq)
  · intro hEq
    simp [hEq] at h

theorem repairLast_head (l : List Char) (r : Rng) (hh : l.head? ≠ some '_') :
    (repairLast l r).1.head? ≠ some '_' := by
  rw [repairLast]
  split_ifs with h
  · have hlne : l ≠ [] := by
      intro hnil; subst hnil; simp at h
    rcases Nat.eq_zero_or_pos (l.length - 1) with hz | hp
    · rw [hz, head?_set_zero hlne]
      intro hEq
      exact letter_not_underscore _ (randChoiceT_mem asciiLetters (by decide) r)
        (Option.some_inj.mp hEq)
    · rw [head?_set_pos _ _ hp]
      exact hh
  · exact hh

theorem repairEdges_ptwise (l : List Char) (r : Rng) :
    PtwiseRepl l (repairEdges l r).1 := by
  rw [repairEdges]
  split_ifs with h
  · exact PtwiseRepl.trans (repairHead_ptwise l r) (repairLast_ptwise _ _)
  · exact PtwiseRepl.refl l

theorem repairEdges_head (l : List Char) (r : Rng) :
    (repairEdges l r).1.head? ≠ some '_' := by
  rw [repairEdges]
  split_ifs with h
  · exact repairLast_head _ _ (repairHead_head l r)
  · intro hEq
    simp [hEq] at h

theorem repairEdges_getLast (l : List Char) (r : Rng) :
    (repairEdges l r).1.getLast? ≠ some '_' := by
  rw [repairEdges]
  split_ifs with h
  · exact repairLast_getLast _ _
  · intro hEq
    simp [hEq] at h

theorem replaceExtras_ptwise (first : Nat) :
    ∀ (i : Nat) (l : List Char) (r : Rng), PtwiseRepl l (replaceExtras first i l r).1 := by
  intro i l
  induction l generalizing i with
  | nil => intro r; exact List.Forall₂.nil
  | cons c tl ih =>
    intro r
    rw [replaceExtras]
    split_ifs with h
    · exact List.Forall₂.cons
        (Or.inr (randChoiceT_mem asciiLetters (by decide) r)) (ih (i + 1) _)
    · exact List.Forall₂.cons (Or.inl rfl) (ih (i + 1) _)

theorem replaceExtras_count (first : Nat) :
    ∀ (i : Nat) (l : List Char) (r : Rng),
      (first < i → (replaceExtras first i l r).1.count '_' = 0) ∧
        (replaceExtras first i l r).1.count '_' ≤ 1 := by
  intro i l
  induction l generalizing i with
  | nil =>
    intro r
    constructor
    · intro _; simp [replaceExtras]
    · simp [replaceExtras]
  | cons c tl ih =>
    intro r
    rw [replaceExtras]
    split_ifs with h
    · have hlet := randChoiceT_mem asciiLetters (by decide) r
      have hne : (randChoiceT asciiLetters r).1 ≠ '_' := letter_not_underscore _ hlet
      have ihz := (ih (i + 1) (randChoiceT asciiLetters r).2).1
      have ihle := (ih (i + 1) (randChoiceT asciiLetters r).2).2
      constructor
      · intro hfi
        rw [List.count_cons]
        simp [hne, ihz (by omega)]
      · rw [List.count_cons]
        simp only [beq_iff_eq]
        simp [hne]
        exact ihle
    · simp only [Bool.and_eq_true, decide_eq_true_eq, beq_iff_eq, not_and] at h
      have ihz := (ih (i + 1) r).1
      have ihle := (ih (i + 1) r).2
      constructor
      · intro hfi
        have hcne : c ≠ '_' := fun hcu => (h (by omega)) hcu
        rw [List.count_cons]
        simp [hcne, ihz (by omega)]
      · rw [List.count_cons]
        by_cases hcu : c = '_'
        · have hif : i = first := by
            by_contra hne
            exact (h hne) hcu
          simp [hcu, ihz (by omega)]
        · simp [hcu]
          exact ihle

theorem repairDup_ptwise (l : List Char) (r : Rng) :
    PtwiseRepl l (repairDup l r).1 := by
  rw [repairDup]
  split_ifs with h
  · exact replaceExtras_ptwise _ 0 l r
  · exact PtwiseRepl.refl l

theorem repairDup_count (l : List Char) (r : Rng) :
    (repairDup l r).1.count '_' ≤ 1 := by
  rw [repairDup]
  split_ifs with h
  · exact (replaceExtras_count _ 0 l r).2
  · dsimp only
    omega

theorem pyIsdigit_eq_false_of_mem {l : List Char} {c : Char} (hc : c ∈ l)
    (hd : c.isDigit = false) : pyIsdigit l = false := by
  rw [pyIsdigit]
  have hall : l.all (fun x => x.isDigit) = false := by
    by_contra hcontra
    rw [Bool.not_eq_false] at hcontra
    have := List.all_eq_true.mp hcontra c hc
    rw [hd] at this
    cases this
  rw [hall, Bool.and_false]

theorem repairNumeric_ptwise (l : List Char) (r : Rng) :
    PtwiseRepl l (repairNumeric l r).1 := by
  rw [repairNumeric]
  dsimp only
  split_ifs with h1 h2
  · exact PtwiseRepl.refl l
  · exact PtwiseRepl.set_letter (randChoiceT_mem asciiLetters (by decide) _) _
  · exact PtwiseRepl.refl l

theorem repairNumeric_not_digit (l : List Char) (r : Rng) :
    pyIsdigit ((repairNumeric l r).1.filter (fun c => c != '_')) = false := by
  rw [repairNumeric]
  dsimp only
  split_ifs with h1 h2
  · -- the positions list cannot be empty when the numeric check fires
    exfalso
    have hne : l.filter (fun c => c != '_') ≠ [] := by
      intro hnil
      rw [pyIsdigit, hnil] at h1
      simp at h1
    rcases List.exists_mem_of_ne_nil _ hne with ⟨c, hc⟩
    rcases List.mem_filter.mp hc with ⟨hcl, hcne⟩
    rcases List.mem_iff_getElem.mp hcl with ⟨j, hj, hjc⟩
    have hjmem : j ∈ (List.range l.length).filter (fun i => l.getD i ' ' != '_') := by
      refine List.mem_filter.mpr ⟨List.mem_range.mpr hj, ?_⟩
      rw [List.getD_eq_getElem _ _ hj, hjc]
      exact hcne
    rw [List.isEmpty_iff] at h2
    rw [h2] at hjmem
    cases hjmem
  · -- a non-underscore position receives a letter
    have hposne : (List.range l.length).filter (fun i => l.getD i ' ' != '_') ≠ [] := by
      intro hnil
      rw [← List.isEmpty_iff] at hnil
      exact h2 hnil
    have hposmem := getD_mod_mem _ (r.next).1 0 hposne
    rcases List.mem_filter.mp hposmem with ⟨hrange, _⟩
    have hlt : ((List.range l.length).filter (fun i => l.getD i ' ' != '_')).getD
        ((r.next).1 % ((List.range l.length).filter
          (fun i => l.getD i ' ' != '_')).length) 0 < l.length :=
      List.mem_range.mp hrange
    have hcmem : (randChoiceT asciiLetters (r.next).2).1 ∈ asciiLetters :=
      randChoiceT_mem asciiLetters (by decide) _
    have hcne : (randChoiceT asciiLetters (r.next).2).1 ≠ '_' :=
      letter_not_underscore _ hcmem
    have hlt' : ((List.range l.length).filter (fun i => l.getD i ' ' != '_')).getD
        ((r.next).1 % ((List.range l.length).filter
          (fun i => l.getD i ' ' != '_')).length) 0 <
        (l.set (((List.range l.length).filter (fun i => l.getD i ' ' != '_')).getD
          ((r.next).1 % ((List.range l.length).filter
            (fun i => l.getD i ' ' != '_')).length) 0)
          (randChoiceT asciiLetters (r.next).2).1).length := by
      simpa using hlt
    have hget := List.getElem_set_self hlt'
    have hmemset := List.getElem_mem hlt'
    rw [hget] at hmemset
    refine pyIsdigit_eq_false_of_mem
      (List.mem_filter.mpr ⟨hmemset, by simp [hcne]⟩)
      (letter_not_digit _ hcmem)
  · simp only [Bool.not_eq_true] at h1
    exact h1


/-! Inversion helpers for `Gen` computations and the validity predicate. -/

theorem Gen.lift_ok {α : Type} {g : Rng → α × Rng} {r r' : Rng} {a : α}
    (h : Gen.lift g r = (Except.ok a, r')) : a = (g r).1 ∧ r' = (g r).2 := by
  unfold Gen.lift at h
  rw [Prod.ext_iff] at h
  exact ⟨(Except.ok.inj h.1).symm, h.2.symm⟩

theorem Gen.pure_ok {α : Type} {a b : α} {r r' : Rng}
    (h : (pure a : Gen α) r = (Except.ok b, r')) : b = a ∧ r' = r := by
  rw [Gen.pure_apply, Prod.ext_iff] at h
  exact ⟨(Except.ok.inj h.1).symm, h.2.symm⟩

theorem draw_ok {r r' : Rng} {n : Nat} (h : draw r = (Except.ok n, r')) :
    n = (r.next).1 ∧ r' = (r.next).2 := by
  unfold draw at h
  rw [Prod.ext_iff] at h
  exact ⟨(Except.ok.inj h.1).symm, h.2.symm⟩

theorem randint_ok {a b : Int} {r r' : Rng} {v : Int}
    (h : randint a b r = (Except.ok v, r')) : a ≤ v ∧ v ≤ b := by
  unfold randint at h
  by_cases hab : b < a
  · rw [if_pos hab] at h
    unfold genFail at h
    rw [Prod.ext_iff] at h
    cases h.1
  · rw [if_neg hab] at h
    rcases Gen.bind_ok_iff.mp h with ⟨n, r₁, hdraw, hpure⟩
    rcases Gen.pure_ok hpure with ⟨hv, _⟩
    subst hv
    have hpos : 0 < (b - a + 1).toNat := by omega
    have hlt : n % (b - a + 1).toNat < (b - a + 1).toNat := Nat.mod_lt _ hpos
    have hcast : ((b - a + 1).toNat : Int) = b - a + 1 := by omega
    have : ((n % (b - a + 1).toNat : Nat) : Int) < b - a + 1 := by
      rw [← hcast]
      exact_mod_cast hlt
    constructor
    · have : (0 : Int) ≤ ((n % (b - a + 1).toNat : Nat) : Int) := Int.ofNat_nonneg _
      omega
    · omega

theorem randChoicesT_length (pool : List Char) :
    ∀ (k : Nat) (r : Rng), (randChoicesT pool k r).1.length = k := by
  intro k
  induction k with
  | zero => intro r; rfl
  | succ k ih =>
    intro r
    rw [randChoicesT]
    simp [ih]

theorem head?_eq_getD {l : List Char} (h : l ≠ []) (d : Char) :
    l.head? = some (l.getD 0 d) := by
  cases l with
  | nil => exact absurd rfl h
  | cons a t => rfl

theorem getLast?_eq_getD {l : List Char} (h : l ≠ []) (d : Char) :
    l.getLast? = some (l.getD (l.length - 1) d) := by
  induction l with
  | nil => exact absurd rfl h
  | cons a t ih =>
    cases t with
    | nil => rfl
    | cons b t' =>
      rw [List.getLast?_cons_cons, ih (by simp)]
      simp [List.getD]

/-- The conditions of `validate_username`, bundled. -/
theorem validate_of_facts (u : List Char)
    (hlen3 : 3 ≤ u.length) (hlen20 : u.length ≤ 20)
    (hall : ∀ c ∈ u, isAllowedChar c = true)
    (hhead : u.head? ≠ some '_') (hlast : u.getLast? ≠ some '_')
    (hcount : u.count '_' ≤ 1)
    (hdig : pyIsdigit (u.filter (fun c => c != '_')) = false) :
    validate_username u = true := by
  rw [validate_username]
  have c1 : (decide (u.length < 3) || decide (u.length > 20)) = false := by
    simp only [Bool.or_eq_false_iff, decide_eq_false_iff_not]
    omega
  rw [c1]
  have c2 : u.all isAllowedChar = true := List.all_eq_true.mpr hall
  rw [c2]
  have c3 : ((u.head? == some '_') || (u.getLast? == some '_')) = false := by
    simp only [Bool.or_eq_false_iff, beq_eq_false_iff_ne, ne_eq]
    exact ⟨hhead, hlast⟩
  rw [c3]
  rw [if_neg (by simp)]
  rw [if_neg (by simp)]
  rw [if_neg (by simp)]
  rw [if_neg (by omega : ¬ u.count '_' > 1)]
  rw [if_neg (by simp [hdig] : ¬ pyIsdigit (u.filter (fun c => c != '_')) = true)]


/-! Each pattern emits only allowed characters. -/

theorem patChoices_allowed {pool : List Char} {a b : Int} {r r' : Rng} {u : List Char}
    (hne : pool ≠ []) (hpool : ∀ c ∈ pool, isAllowedChar c = true)
    (h : patChoices pool a b r = (Except.ok u, r')) :
    ∀ c ∈ u, isAllowedChar c = true := by
  rcases Gen.bind_ok_iff.mp h with ⟨k, r₁, _, hrest⟩
  rcases Gen.lift_ok hrest with ⟨hu, _⟩
  subst hu
  intro c hc
  exact hpool c (randChoicesT_mem pool hne _ _ c hc)

theorem patWordLike_allowed {a b : Int} {r r' : Rng} {u : List Char}
    (h : patWordLike a b r = (Except.ok u, r')) :
    ∀ c ∈ u, isAllowedChar c = true := by
  rcases Gen.bind_ok_iff.mp h with ⟨k, r₁, _, hrest⟩
  rcases Gen.lift_ok hrest with ⟨hu, _⟩
  subst hu
  intro c hc
  exact letter_allowed c (generate_word_like_mem k r₁ c hc)

theorem patUnderscoreShort_allowed {maxL : Int} {r r' : Rng} {u : List Char}
    (h : patUnderscoreShort maxL r = (Except.ok u, r')) :
    ∀ c ∈ u, isAllowedChar c = true := by
  rcases Gen.bind_ok_iff.mp h with ⟨k1, r₁, _, h⟩
  rcases Gen.bind_ok_iff.mp h with ⟨p1, r₂, hp1, h⟩
  rcases Gen.bind_ok_iff.mp h with ⟨k2, r₃, _, h⟩
  rcases Gen.bind_ok_iff.mp h with ⟨p2, r₄, hp2, h⟩
  rcases Gen.pure_ok h with ⟨hu, _⟩
  subst hu
  rcases Gen.lift_ok hp1 with ⟨h1, _⟩
  rcases Gen.lift_ok hp2 with ⟨h2, _⟩
  subst h1
  subst h2
  intro c hc
  rcases List.mem_append.mp hc with hc | hc
  · exact lettersAndDigits_allowed c
      (randChoicesT_mem lettersAndDigits (by decide) _ _ c hc)
  · rcases List.mem_cons.mp hc with rfl | hc
    · exact underscore_allowed
    · exact lettersAndDigits_allowed c
        (randChoicesT_mem lettersAndDigits (by decide) _ _ c hc)

theorem patUnderscoreLong_allowed {minL maxL : Int} {r r' : Rng} {u : List Char}
    (h : patUnderscoreLong minL maxL r = (Except.ok u, r')) :
    ∀ c ∈ u, isAllowedChar c = true := by
  rcases Gen.bind_ok_iff.mp h with ⟨k1, r₁, _, h⟩
  rcases Gen.bind_ok_iff.mp h with ⟨p1, r₂, hp1, h⟩
  rcases Gen.bind_ok_iff.mp h with ⟨k2, r₃, _, h⟩
  rcases Gen.bind_ok_iff.mp h with ⟨p2, r₄, hp2, h⟩
  rcases Gen.pure_ok h with ⟨hu, _⟩
  subst hu
  rcases Gen.lift_ok hp1 with ⟨h1, _⟩
  rcases Gen.lift_ok hp2 with ⟨h2, _⟩
  subst h1
  subst h2
  intro c hc
  rcases List.mem_append.mp hc with hc | hc
  · exact lettersAndDigits_allowed c
      (randChoicesT_mem lettersAndDigits (by decide) _ _ c hc)
  · rcases List.mem_cons.mp hc with rfl | hc
    · exact underscore_allowed
    · exact lettersAndDigits_allowed c
        (randChoicesT_mem lettersAndDigits (by decide) _ _ c hc)

theorem patternOptions_allowed {minL maxL : Int} {g : Gen (List Char)}
    (hg : g ∈ patternOptions minL maxL) {r r' : Rng} {u : List Char}
    (h : g r = (Except.ok u, r')) : ∀ c ∈ u, isAllowedChar c = true := by
  rw [patternOptions] at hg
  have hbase : g ∈ [patChoices lettersAndDigits minL maxL,
      patWordLike minL maxL, patChoices asciiLetters minL maxL] →
      ∀ c ∈ u, isAllowedChar c = true := by
    intro hmem
    simp only [List.mem_cons, List.not_mem_nil, or_false] at hmem
    rcases hmem with rfl | rfl | rfl
    · exact patChoices_allowed (by decide) lettersAndDigits_allowed h
    · exact patWordLike_allowed h
    · exact patChoices_allowed (by decide) letter_allowed h
  split_ifs at hg with h1 h2 h3
  · rcases List.mem_append.mp hg with hg | hg
    · exact hbase hg
    · simp only [List.mem_singleton] at hg
      subst hg
      exact patUnderscoreShort_allowed h
  · exact hbase hg
  · rcases List.mem_append.mp hg with hg | hg
    · exact hbase hg
    · simp only [List.mem_singleton] at hg
      subst hg
      exact patUnderscoreLong_allowed h
  · exact hbase hg

theorem pickPattern_allowed {minL maxL : Int} {r r' : Rng} {u : List Char}
    (h : pickPattern minL maxL r = (Except.ok u, r')) :
    ∀ c ∈ u, isAllowedChar c = true := by
  rcases Gen.bind_ok_iff.mp h with ⟨n, r₁, _, hrest⟩
  by_cases hidx : n % (patternOptions minL maxL).length < (patternOptions minL maxL).length
  · have hmem : (patternOptions minL maxL).getD (n % (patternOptions minL maxL).length)
        (pure []) ∈ patternOptions minL maxL := by
      rw [List.getD_eq_getElem _ _ hidx]
      exact List.getElem_mem hidx
    exact patternOptions_allowed hmem hrest
  · rw [List.getD_eq_default _ _ (by omega)] at hrest
    rcases Gen.pure_ok hrest with ⟨hu, _⟩
    subst hu
    intro c hc
    cases hc


/-! The attempt loop always yields valid candidates. -/

theorem genAttempt_some_valid {minL maxL : Int} {r r' : Rng} {u : List Char}
    (h3 : 3 ≤ minL) (h20 : maxL ≤ 20)
    (h : genAttempt minL maxL r = (Except.ok (some u), r')) :
    validate_username u = true := by
  rcases Gen.bind_ok_iff.mp h with ⟨u₀, r₁, hpick, hrest⟩
  have hallowed₀ := pickPattern_allowed hpick
  by_cases hlen : ((u₀.length : Int) < minL || (u₀.length : Int) > maxL : Bool)
  · rw [if_pos hlen] at hrest
    rcases Gen.pure_ok hrest with ⟨hu, _⟩
    cases hu
  · rw [if_neg hlen] at hrest
    rcases Gen.bind_ok_iff.mp hrest with ⟨u1, r₂, he, hrest⟩
    rcases Gen.bind_ok_iff.mp hrest with ⟨u2, r₃, hd, hrest⟩
    rcases Gen.bind_ok_iff.mp hrest with ⟨u3, r₄, hn, hrest⟩
    rcases Gen.pure_ok hrest with ⟨hu, _⟩
    rcases Gen.lift_ok he with ⟨he1, he2⟩
    rcases Gen.lift_ok hd with ⟨hd1, hd2⟩
    rcases Gen.lift_ok hn with ⟨hn1, hn2⟩
    have hu' : u = u3 := Option.some_inj.mp hu
    subst hu'
    subst he1
    subst he2
    subst hd1
    subst hd2
    subst hn1
    -- length bounds from the explicit range check
    simp only [Bool.or_eq_true, not_or, decide_eq_true_eq] at hlen
    have hlen3 : 3 ≤ u₀.length := by omega
    have hlen20 : u₀.length ≤ 20 := by omega
    -- the repair chain
    have hp1 := repairEdges_ptwise u₀ r₁
    have hp2 := repairDup_ptwise (repairEdges u₀ r₁).1 (repairEdges u₀ r₁).2
    have hp3 := repairNumeric_ptwise (repairDup (repairEdges u₀ r₁).1
      (repairEdges u₀ r₁).2).1 (repairDup (repairEdges u₀ r₁).1 (repairEdges u₀ r₁).2).2
    have hchain : PtwiseRepl u₀ (repairNumeric (repairDup (repairEdges u₀ r₁).1
        (repairEdges u₀ r₁).2).1 (repairDup (repairEdges u₀ r₁).1
          (repairEdges u₀ r₁).2).2).1 :=
      PtwiseRepl.trans (PtwiseRepl.trans hp1 hp2) hp3
    refine validate_of_facts _ ?_ ?_ ?_ ?_ ?_ ?_ ?_
    · rw [hchain.length_eq]
      exact hlen3
    · rw [hchain.length_eq]
      exact hlen20
    · exact hchain.allowed hallowed₀
    · exact (PtwiseRepl.trans hp2 hp3).head_ne (repairEdges_head u₀ r₁)
    · exact (PtwiseRepl.trans hp2 hp3).getLast_ne (repairEdges_getLast u₀ r₁)
    · calc _ ≤ (repairDup (repairEdges u₀ r₁).1 (repairEdges u₀ r₁).2).1.count '_' :=
            hp3.count_underscore
        _ ≤ 1 := repairDup_count _ _
    · exact repairNumeric_not_digit _ _

theorem genLoop_ok_valid {minL maxL : Int} (h3 : 3 ≤ minL) (hm : minL ≤ maxL)
    (h20 : maxL ≤ 20) (cooldown : List Char → Bool) :
    ∀ (fuel : Nat) (r r' : Rng) (u : List Char),
      genLoop minL maxL cooldown fuel r = (Except.ok u, r') →
        validate_username u = true := by
  intro fuel
  induction fuel with
  | zero =>
    intro r r' u h
    rw [genLoop] at h
    rcases Gen.bind_ok_iff.mp h with ⟨L, r₁, hL, h⟩
    rcases Gen.bind_ok_iff.mp h with ⟨sfx, r₂, hs, h⟩
    rcases Gen.bind_ok_iff.mp h with ⟨d, r₃, hd, h⟩
    rcases Gen.pure_ok h with ⟨hu, _⟩
    subst hu
    rcases randint_ok hL with ⟨hL1, hL2⟩
    rcases randint_ok hd with ⟨hd1, hd2⟩
    rcases Gen.lift_ok hs with ⟨hs1, _⟩
    subst hs1
    have hslen : (randChoicesT asciiLetters (L.toNat - 1) r₁).1.length = L.toNat - 1 :=
      randChoicesT_length asciiLetters _ r₁
    have hLn : 3 ≤ L.toNat ∧ L.toNat ≤ 20 := by omega
    have hsub : ∀ c ∈ (randChoicesT asciiLetters (L.toNat - 1) r₁).1,
        c ∈ asciiLetters := randChoicesT_mem asciiLetters (by decide) _ r₁
    have hdc : digitChars.getD d.toNat '0' ∈ digitChars := by
      have : d.toNat < digitChars.length := by
        have : digitChars.length = 10 := by decide
        omega
      rw [List.getD_eq_getElem _ _ this]
      exact List.getElem_mem this
    have hsne : (randChoicesT asciiLetters (L.toNat - 1) r₁).1 ≠ [] := by
      intro hnil
      rw [hnil] at hslen
      simp at hslen
      omega
    refine validate_of_facts _ ?_ ?_ ?_ ?_ ?_ ?_ ?_
    · simp [hslen]; omega
    · simp [hslen]; omega
    · intro c hc
      rcases List.mem_append.mp hc with hc | hc
      · exact letter_allowed c (hsub c hc)
      · rcases List.mem_singleton.mp hc with rfl
        exact digit_allowed _ hdc
    · rw [List.head?_append_of_ne_nil _ hsne]
      rcases hcons : (randChoicesT asciiLetters (L.toNat - 1) r₁).1 with _ | ⟨c₀, cs⟩
      · exact absurd hcons hsne
      · rw [List.head?_cons]
        intro hEq
        have hc₀ : c₀ ∈ asciiLetters := by
          apply hsub
          rw [hcons]
          exact List.mem_cons_self _ _
        exact letter_not_underscore _ hc₀ (Option.some_inj.mp hEq)
    · rw [List.getLast?_concat]
      intro hEq
      have := digit_mem_lettersAndDigits _ hdc
      exact lettersAndDigits_not_underscore _ this (Option.some_inj.mp hEq)
    · rw [List.count_eq_zero.mpr]
      · omega
      · intro hmem
        rcases List.mem_append.mp hmem with hc | hc
        · exact letter_not_underscore _ (hsub _ hc) rfl
        · have hceq := List.mem_singleton.mp hc
          exact lettersAndDigits_not_underscore _
            (digit_mem_lettersAndDigits _ hdc) hceq.symm
    · rcases hcons : (randChoicesT asciiLetters (L.toNat - 1) r₁).1 with _ | ⟨c₀, cs⟩
      · exact absurd hcons hsne
      · have hc₀ : c₀ ∈ asciiLetters := by
          apply hsub
          rw [hcons]
          exact List.mem_cons_self _ _
        refine pyIsdigit_eq_false_of_mem (List.mem_filter.mpr ⟨?_, ?_⟩)
          (letter_not_digit _ hc₀)
        · exact List.mem_append_left _ (List.mem_cons_self _ _)
        · simp [letter_not_underscore _ hc₀]
  | succ fuel ih =>
    intro r r' u h
    rw [genLoop] at h
    rcases Gen.bind_ok_iff.mp h with ⟨u?, r₁, hatt, hrest⟩
    cases u? with
    | none => exact ih r₁ r' u hrest
    | some u₀ =>
      dsimp only at hrest
      by_cases hcd : cooldown u₀
      · rw [if_pos hcd] at hrest
        exact ih r₁ r' u hrest
      · rw [if_neg hcd] at hrest
        rcases Gen.pure_ok hrest with ⟨hu, _⟩
        subst hu
        exact genAttempt_some_valid h3 h20 hatt

/-- Every string returned by `generate_username_with_length` is valid. -/
theorem generate_username_with_length_valid (min0 max0 : Int)
    (cooldown : List Char → Bool) (r r' : Rng) (u : List Char)
    (h : generate_username_with_length min0 max0 cooldown r = (Except.ok u, r')) :
    validate_username u = true := by
  rw [generate_username_with_length] at h
  refine genLoop_ok_valid ?_ ?_ ?_ cooldown 15 r r' u h
  · omega
  · omega
  · omega


/-! The two short underscore paths of `generate_username`. -/

theorem threeCharAssemble {first last : Char}
    (hfm : first ∈ lettersAndDigits) (hlm : last ∈ lettersAndDigits)
    (hdig : first.isDigit = false ∨ last.isDigit = false) :
    validate_username [first, '_', last] = true := by
  have hfne : first ≠ '_' := lettersAndDigits_not_underscore _ hfm
  have hlne : last ≠ '_' := lettersAndDigits_not_underscore _ hlm
  refine validate_of_facts _ ?_ ?_ ?_ ?_ ?_ ?_ ?_
  · simp
  · simp
  · intro c hc
    simp only [List.mem_cons, List.not_mem_nil, or_false] at hc
    rcases hc with rfl | rfl | rfl
    · exact lettersAndDigits_allowed _ hfm
    · exact underscore_allowed
    · exact lettersAndDigits_allowed _ hlm
  · simp only [List.head?_cons]
    intro hEq
    exact hfne (Option.some_inj.mp hEq)
  · rw [show [first, '_', last] = [first, '_'] ++ [last] by simp,
      List.getLast?_concat]
    intro hEq
    exact hlne (Option.some_inj.mp hEq)
  · simp [List.count_cons, hfne, hlne]
  · have hfilt : [first, '_', last].filter (fun c => c != '_') = [first, last] := by
      simp [hfne, hlne]
    rw [hfilt]
    rcases hdig with hd | hd
    · exact pyIsdigit_eq_false_of_mem (l := [first, last]) (by simp) hd
    · exact pyIsdigit_eq_false_of_mem (l := [first, last]) (by simp) hd

theorem genThreeCharUnderscore_valid {r r' : Rng} {u : List Char}
    (h : genThreeCharUnderscore r = (Except.ok u, r')) :
    validate_username u = true := by
  rw [genThreeCharUnderscore] at h
  rcases Gen.bind_ok_iff.mp h with ⟨first, r₁, hf, h⟩
  rcases Gen.bind_ok_iff.mp h with ⟨last0, r₂, hl0, h⟩
  rcases Gen.lift_ok hf with ⟨hf1, _⟩
  rcases Gen.lift_ok hl0 with ⟨hl01, _⟩
  have hfm : first ∈ lettersAndDigits := by
    rw [hf1]
    exact randChoiceT_mem lettersAndDigits (by decide) _
  have hl0m : last0 ∈ lettersAndDigits := by
    rw [hl01]
    exact randChoiceT_mem lettersAndDigits (by decide) _
  by_cases hcond : (last0.isDigit && first.isDigit : Bool)
  · rw [if_pos hcond] at h
    rcases Gen.bind_ok_iff.mp h with ⟨last, r₃, hl, h⟩
    rcases Gen.pure_ok h with ⟨hu, _⟩
    subst hu
    rcases Gen.lift_ok hl with ⟨hl1, _⟩
    have hlm : last ∈ asciiLetters := by
      rw [hl1]
      exact randChoiceT_mem asciiLetters (by decide) _
    refine threeCharAssemble hfm ?_ (Or.inr (letter_not_digit _ hlm))
    rw [lettersAndDigits]
    exact List.mem_append_left _ hlm
  · rw [if_neg hcond] at h
    rcases Gen.bind_ok_iff.mp h with ⟨last, r₃, hl, h⟩
    rcases Gen.pure_ok h with ⟨hu, _⟩
    subst hu
    rcases Gen.pure_ok hl with ⟨hl1, _⟩
    subst hl1
    simp only [Bool.and_eq_true, not_and] at hcond
    by_cases hfd : first.isDigit = true
    · refine threeCharAssemble hfm hl0m (Or.inr ?_)
      rcases Bool.eq_false_or_eq_true (last.isDigit) with hh | hh
      · exact absurd hfd (hcond hh)
      · exact hh
    · exact threeCharAssemble hfm hl0m (Or.inl (Bool.not_eq_true _ ▸ hfd))

/-- The shape of a 4-character underscore candidate: correct length, an
underscore exactly at `pos`, non-underscore allowed characters elsewhere,
and at most one underscore overall. -/
def FourSpec (pos i k : Nat) (u : List Char) : Prop :=
  u.length = k ∧
    (∀ j, j < k → ((i + j = pos → u.getD j ' ' = '_') ∧
      (i + j ≠ pos → isAllowedChar (u.getD j ' ') = true ∧ u.getD j ' ' ≠ '_'))) ∧
    (pos < i → u.count '_' = 0) ∧ u.count '_' ≤ 1

theorem genFourChar_assemble {pos i k : Nat} {c : Char} {r r' : Rng} {u : List Char}
    (ih : ∀ (r r' : Rng) (u : List Char),
      genFourChar pos (i + 1) k r = (Except.ok u, r') → FourSpec pos (i + 1) k u)
    (hcf : (i = pos → c = '_') ∧ (i ≠ pos → isAllowedChar c = true ∧ c ≠ '_'))
    (h : (genFourChar pos (i + 1) k >>= fun rest => pure (c :: rest)) r
      = (Except.ok u, r')) :
    FourSpec pos i (k + 1) u := by
  rcases Gen.bind_ok_iff.mp h with ⟨rest, r₂, hrest, h⟩
  rcases Gen.pure_ok h with ⟨hu, _⟩
  subst hu
  rcases ih r r₂ rest hrest with ⟨hlen, hidx, hz, hle⟩
  refine ⟨by simp [hlen], ?_, ?_, ?_⟩
  · intro j hj
    cases j with
    | zero =>
      exact ⟨fun hp => hcf.1 (by omega), fun hp => hcf.2 (by omega)⟩
    | succ j =>
      have := hidx j (by omega)
      exact ⟨fun hp => this.1 (by omega), fun hp => this.2 (by omega)⟩
  · intro hpi
    have hcne := (hcf.2 (by omega)).2
    rw [List.count_cons, hz (by omega)]
    simp [hcne]
  · rw [List.count_cons]
    by_cases hip : i = pos
    · rw [hz (by omega)]
      split_ifs <;> omega
    · have hcne := (hcf.2 hip).2
      have hbeq : (c == '_') = false := by simp [hcne]
      rw [hbeq]
      simpa using hle

theorem genFourChar_spec (pos : Nat) : ∀ (k i : Nat) (r r' : Rng) (u : List Char),
    genFourChar pos i k r = (Except.ok u, r') → FourSpec pos i k u := by
  intro k
  induction k with
  | zero =>
    intro i r r' u h
    rw [genFourChar] at h
    rcases Gen.pure_ok h with ⟨hu, _⟩
    subst hu
    refine ⟨rfl, ?_, ?_, ?_⟩
    · intro j hj; omega
    · intro _; rfl
    · simp
  | succ k ih =>
    intro i r r' u h
    rw [genFourChar] at h
    by_cases hip : (i == pos : Bool)
    · rw [if_pos hip] at h
      rcases Gen.bind_ok_iff.mp h with ⟨c, r₁, hc, h⟩
      rcases Gen.pure_ok hc with ⟨hc1, _⟩
      subst hc1
      simp only [beq_iff_eq] at hip
      exact genFourChar_assemble (ih (i + 1))
        ⟨fun _ => rfl, fun hne => absurd hip hne⟩ h
    · rw [if_neg hip] at h
      simp only [beq_iff_eq] at hip
      rcases Gen.bind_ok_iff.mp h with ⟨d, r₁, hd, h⟩
      have hfin : ∃ (c : Char) (r₂ : Rng),
          (c ∈ digitChars ∨ c ∈ asciiUppercase ∨ c ∈ asciiLowercase) ∧
          (genFourChar pos (i + 1) k >>= fun rest => pure (c :: rest)) r₂
            = (Except.ok u, r') := by
        by_cases hdd : (d : Bool)
        · rw [if_pos hdd] at h
          rcases Gen.bind_ok_iff.mp h with ⟨c, r₂, hc, h⟩
          rcases Gen.lift_ok hc with ⟨hc1, _⟩
          subst hc1
          exact ⟨_, _, Or.inl (randChoiceT_mem digitChars (by decide) _), h⟩
        · rw [if_neg hdd] at h
          rcases Gen.bind_ok_iff.mp h with ⟨uc, r₂, huc, h⟩
          by_cases hucb : (uc : Bool)
          · rw [if_pos hucb] at h
            rcases Gen.bind_ok_iff.mp h with ⟨c, r₃, hc, h⟩
            rcases Gen.lift_ok hc with ⟨hc1, _⟩
            subst hc1
            exact ⟨_, _, Or.inr (Or.inl (randChoiceT_mem asciiUppercase (by decide) _)), h⟩
          · rw [if_neg hucb] at h
            rcases Gen.bind_ok_iff.mp h with ⟨c, r₃, hc, h⟩
            rcases Gen.lift_ok hc with ⟨hc1, _⟩
            subst hc1
            exact ⟨_, _, Or.inr (Or.inr (randChoiceT_mem asciiLowercase (by decide) _)), h⟩
      rcases hfin with ⟨c, r₂, hcmem, h⟩
      have hall : isAllowedChar c = true ∧ c ≠ '_' := by
        rcases hcmem with hm | hm | hm
        · exact ⟨digit_allowed _ hm,
            lettersAndDigits_not_underscore _ (digit_mem_lettersAndDigits _ hm)⟩
        · exact ⟨letter_allowed _ (upper_letter _ hm),
            letter_not_underscore _ (upper_letter _ hm)⟩
        · exact ⟨letter_allowed _ (lower_letter _ hm),
            letter_not_underscore _ (lower_letter _ hm)⟩
      exact genFourChar_assemble (ih (i + 1))
        ⟨fun hcontra => absurd hcontra hip, fun _ => hall⟩ h

theorem fourCharChain_valid {pos : Nat} (hpos : pos = 1 ∨ pos = 2)
    {r r₁ : Rng} {chars : List Char}
    (hch : genFourChar pos 0 4 r = (Except.ok chars, r₁)) (r₂ : Rng) :
    validate_username (repairNumeric chars r₂).1 = true := by
  rcases genFourChar_spec pos 4 0 r r₁ chars hch with ⟨hlen, hidx, _, hle⟩
  have hne : chars ≠ [] := by
    intro hnil
    rw [hnil] at hlen
    simp at hlen
  have hp := repairNumeric_ptwise chars r₂
  refine validate_of_facts _ ?_ ?_ ?_ ?_ ?_ ?_ ?_
  · rw [hp.length_eq, hlen]
    omega
  · rw [hp.length_eq, hlen]
    omega
  · refine hp.allowed ?_
    intro c hc
    rcases List.mem_iff_getElem.mp hc with ⟨j, hj, hjc⟩
    have hj4 : j < 4 := by omega
    have hgd : chars.getD j ' ' = c := by
      rw [List.getD_eq_getElem _ _ hj, hjc]
    by_cases hjp : 0 + j = pos
    · rw [← hgd, (hidx j hj4).1 hjp]
      exact underscore_allowed
    · rw [← hgd]
      exact ((hidx j hj4).2 hjp).1
  · refine hp.head_ne ?_
    rw [head?_eq_getD hne ' ']
    intro hEq
    have h0 : (0 : Nat) + 0 ≠ pos := by omega
    exact ((hidx 0 (by omega)).2 h0).2 (Option.some_inj.mp hEq)
  · refine hp.getLast_ne ?_
    rw [getLast?_eq_getD hne ' ', hlen]
    intro hEq
    have h3 : (0 : Nat) + 3 ≠ pos := by omega
    exact ((hidx 3 (by omega)).2 h3).2 (Option.some_inj.mp hEq)
  · calc _ ≤ chars.count '_' := hp.count_underscore
      _ ≤ 1 := hle
  · exact repairNumeric_not_digit _ _

/-- Every string returned by `generate_username` is valid. -/
theorem generate_username_valid (dist : List (Int × Rat))
    (cooldown : List Char → Bool) (r r' : Rng) (u : List Char)
    (h : generate_username dist cooldown r = (Except.ok u, r')) :
    validate_username u = true := by
  rw [generate_username] at h
  by_cases hexc : ((coinT r).1 : Bool)
  · rw [if_pos hexc] at h
    exact generate_username_with_length_valid 3 6 cooldown _ _ u h
  · rw [if_neg hexc] at h
    rcases hbody : generate_username_body dist cooldown (coinT r).2 with ⟨e, r₁⟩
    rw [hbody] at h
    cases e with
    | error e =>
      exact generate_username_with_length_valid 3 6 cooldown _ _ u h
    | ok u₀ =>
      rw [Prod.ext_iff] at h
      have hu : u₀ = u := Except.ok.inj h.1
      subst hu
      -- analyse the body
      rw [generate_username_body] at hbody
      by_cases hde : dist.isEmpty
      · rw [if_pos hde] at hbody
        exact generate_username_with_length_valid 3 6 cooldown _ _ u₀ hbody
      · rw [if_neg hde] at hbody
        rcases Gen.bind_ok_iff.mp hbody with ⟨n, r₂, hn, hbody⟩
        by_cases hch : ((dist.getD (n % dist.length) (3, 0)).1 ≤ 4)
        · rw [if_pos hch] at hbody
          rcases Gen.bind_ok_iff.mp hbody with ⟨b, r₃, hb, hbody⟩
          by_cases hbb : (b : Bool)
          · rw [if_pos hbb] at hbody
            by_cases h3 : ((dist.getD (n % dist.length) (3, 0)).1 == 3 : Bool)
            · rw [if_pos h3] at hbody
              exact genThreeCharUnderscore_valid hbody
            · rw [if_neg h3] at hbody
              rcases Gen.bind_ok_iff.mp hbody with ⟨b2, r₄, hb2, hbody⟩
              rcases Gen.bind_ok_iff.mp hbody with ⟨chars, r₅, hchars, hbody⟩
              rcases Gen.lift_ok hbody with ⟨hu1, _⟩
              subst hu1
              exact fourCharChain_valid (by
                  by_cases hb2b : (b2 : Bool) <;> simp [hb2b]) hchars r₅
          · rw [if_neg hbb] at hbody
            exact generate_username_with_length_valid _ _ cooldown _ _ u₀ hbody
        · rw [if_neg hch] at hbody
          exact generate_username_with_length_valid _ _ cooldown _ _ u₀ hbody


/-- Claim C1: for every pair of arguments (min_length, max_length) and every
sequence of random choices, the string returned by
generate_username_with_length (including its 15-attempt fallback path) and by
generate_username satisfies validate_username: its length is in [3,20], its
characters are letters, digits or underscore, it contains at most one
underscore, the underscore is never the first or last character, and it is
not composed entirely of digits once the underscore is removed. -/
theorem claim_C1 :
    (∀ (min0 max0 : Int) (cooldown : List Char → Bool) (r r' : Rng) (u : List Char),
      generate_username_with_length min0 max0 cooldown r = (Except.ok u, r') →
        validate_username u = true) ∧
    (∀ (dist : List (Int × Rat)) (cooldown : List Char → Bool) (r r' : Rng)
        (u : List Char),
      generate_username dist cooldown r = (Except.ok u, r') →
        validate_username u = true) :=
  ⟨fun min0 max0 cd r r' u h =>
      generate_username_with_length_valid min0 max0 cd r r' u h,
    fun dist cd r r' u h => generate_username_valid dist cd r r' u h⟩

/-- Witness for C1: a concrete run of the generator (the all-zeros oracle,
no cooldown) returns the candidate "aaa", which the theorem then shows
valid. -/
theorem claim_C1_witness : validate_username ['a', 'a', 'a'] = true :=
  claim_C1.1 3 6 (fun _ => false) { f := fun _ => 0, k := 0 }
    { f := fun _ => 0, k := 5 } ['a', 'a', 'a'] (by rfl)


/-! ### adaptive_learning.py -/

/-- Insertion-ordered association list standing for a Python dict: value of
the first binding of `k`, or `d` when absent. -/
def dictGet {α β : Type} [BEq α] (l : List (α × β)) (k : α) (d : β) : β :=
  match l.find? (fun p => p.1 == k) with
  | some p => p.2
  | none => d

/-- Python `k in d` on the dict model. -/
def dictMem {α β : Type} [BEq α] (l : List (α × β)) (k : α) : Bool :=
  l.any (fun p => p.1 == k)

/-- Python `d[k] = v` on the dict model: update the first binding in place,
or append a new binding (dict insertion order). -/
def dictSet {α β : Type} [BEq α] : List (α × β) → α → β → List (α × β)
  | [], k, v => [(k, v)]
  | p :: t, k, v => if p.1 == k then (k, v) :: t else p :: dictSet t k v

/-- Module constants of adaptive_learning.py (lines 24-41). -/
def MIN_SUCCESS_THRESHOLD : Rat := 5 / 100

/-- Maximum allowed parallel checks. -/
def MAX_PARALLEL_CHECKS : Int := 50

/-- Minimum allowed parallel checks. -/
def MIN_PARALLEL_CHECKS : Int := 5

/-- Size of the sliding outcome window. -/
def SUCCESS_WINDOW_SIZE : Nat := 100

/-- Consecutive-error threshold for cookie cooldown. -/
def ERROR_THRESHOLD : Int := 5

/-- Exponential-smoothing factor (0.1; Python floats are modelled as exact
rationals, and every comparison appearing in the verified claims is far from
the region where double rounding could flip its outcome). -/
def LEARNING_RATE : Rat := 1 / 10

/-- Cookie cooldown length in seconds. -/
def COOKIE_COOLDOWN : Rat := 300

/-- Default length-weight distribution. -/
def LENGTH_DISTRIBUTION : List (Int × Rat) :=
  [(3, 30), (4, 25), (5, 20), (6, 15), (7, 5), (8, 3), (9, 2)]

/-- One `(timestamp, is_available, error)` tuple of the outcome windows. -/
structure CheckRecord where
  t : Rat
  is_available : Bool
  error : Bool
deriving DecidableEq

/-- Per-cookie health record. -/
structure CookieStatus where
  last_used : Rat
  success_count : Int
  error_count : Int
  cooldown_until : Rat
deriving DecidableEq

instance : Inhabited CookieStatus :=
  ⟨{ last_used := 0, success_count := 0, error_count := 0, cooldown_until := 0 }⟩

/-- The mutable state of the `AdaptiveLearning` object. -/
structure ALState where
  recent_checks : List CheckRecord
  recent_lengths : List (Int × List CheckRecord)
  pattern_weights : List (String × Rat)
  parallel_checks : Int
  check_interval : Rat
  length_weights : List (Int × Rat)
  underscore_probability : Rat
  numeric_probability : Rat
  uppercase_probability : Rat
  cookies : List String
  cookie_status : List CookieStatus
  current_cookie_index : Nat

/-- `AdaptiveLearning.__init__` with no saved state on disk: defaults from
lines 44-64; the cookies loaded from the environment are a parameter. -/
def initALState (cookies : List String) (now : Rat) : ALState :=
  { recent_checks := []
    recent_lengths := []
    pattern_weights := []
    parallel_checks := 10
    check_interval := 1 / 10
    length_weights := LENGTH_DISTRIBUTION
    underscore_probability := 2 / 10
    numeric_probability := 3 / 10
    uppercase_probability := 4 / 10
    cookies := cookies
    cookie_status := cookies.map (fun _ =>
      { last_used := now, success_count := 0, error_count := 0, cooldown_until := 0 })
    current_cookie_index := 0 }

/-- `self.cookie_status[i]` (callers guard the index). -/
def statusAt (s : ALState) (i : Nat) : CookieStatus := s.cookie_status.getD i default

/-- In-place update of one cookie-status entry. -/
def updStatus (l : List CookieStatus) (i : Nat) (f : CookieStatus → CookieStatus) :
    List CookieStatus :=
  l.set i (f (l.getD i default))

/-- `_extract_patterns` (adaptive_learning.py, lines 227-257). -/
def extract_patterns (username : String) : List String :=
  let type_pattern := String.mk (username.toList.map (fun c =>
    if c.isUpper then 'U' else if c.isLower then 'L'
    else if c.isDigit then 'N' else '_'))
  let patterns := ["type:" ++ type_pattern]
  let patterns :=
    if username.toList.contains '_' then
      patterns ++ ["underscore_pos:" ++ toString (username.toList.indexOf '_')]
    else patterns
  let has_underscore := username.toList.contains '_'
  let has_number := username.toList.any (fun c => c.isDigit)
  patterns ++
    ["has_underscore:" ++ (if has_underscore then "True" else "False"),
     "has_number:" ++ (if has_number then "True" else "False"),
     "length:" ++ toString username.length]

/-- `record_check` (adaptive_learning.py, lines 175-225). -/
def record_check (s : ALState) (username : String) (is_available : Bool)
    (error : Bool) (now : Rat) : ALState :=
  let rc := s.recent_checks ++ [{ t := now, is_available := is_available, error := error }]
  let rc := if rc.length > SUCCESS_WINDOW_SIZE then rc.drop 1 else rc
  let s := { s with recent_checks := rc }
  let s :=
    if s.current_cookie_index < s.cookie_status.length then
      if error then
        { s with cookie_status := (updStatus s.cookie_status s.current_cookie_index
            (fun st => { st with error_count := st.error_count + 1 })) }
      else
        let s1 :=
          if is_available then
            { s with cookie_status := (updStatus s.cookie_status s.current_cookie_index
                (fun st => { st with success_count := st.success_count + 1 })) }
          else s
        { s1 with cookie_status := (updStatus s1.cookie_status s1.current_cookie_index
            (fun st => { st with last_used := now })) }
    else s
  let len : Int := username.length
  let bucket : List CheckRecord := dictGet s.recent_lengths len []
  let bucket := bucket ++ [{ t := now, is_available := is_available, error := error }]
  let bucket := if bucket.length > (50 : Nat) then bucket.drop 1 else bucket
  let s := { s with recent_lengths := dictSet s.recent_lengths len bucket }
  if is_available then
    { s with pattern_weights := (extract_patterns username).foldl (fun pw p =>
        if dictMem pw p then dictSet pw p (dictGet pw p 0 + 1)
        else dictSet pw p 1) s.pattern_weights }
  else s

/-- `_error_rate` (adaptive_learning.py, lines 514-521). -/
def error_rate (s : ALState) : Rat :=
  if s.recent_checks.isEmpty then 0
  else
    let total := s.recent_checks.length
    let errors := (s.recent_checks.filter (fun c => c.error)).length
    if total > 0 then (errors : Rat) / (total : Rat) else 0

/-- `calculate_dynamic_values` (adaptive_learning.py, lines 294-338).  With
zero cookies it returns `MIN_PARALLEL_CHECKS` immediately; with at least one
cookie, execution reaches the `scaling_factor` line (line 323), which
evaluates `math.log` — but adaptive_learning.py never imports `math`, so
the call raises `NameError` before any state is mutated. -/
def calculate_dynamic_values (s : ALState) : Except Unit Int :=
  if s.cookies.length = 0 then Except.ok MIN_PARALLEL_CHECKS
  else Except.error ()

/-- `_adapt_parallel_checks` (adaptive_learning.py, lines 368-394).  The
surrounding `try/except` catches the `NameError` from
`calculate_dynamic_values` and falls back to `parallel_checks = 10`. -/
def adapt_parallel_checks (s : ALState) (success_rate : Rat) : ALState :=
  match calculate_dynamic_values s with
  | Except.error _ => { s with parallel_checks := 10 }
  | Except.ok cookie_based_checks =>
    let new_parallel : Int :=
      if success_rate < 1 / 100 then
        max (pyTrunc ((cookie_based_checks : Rat) * (7 / 10))) MIN_PARALLEL_CHECKS
      else if success_rate ≥ 5 / 100 ∧ error_rate s < 1 / 10 then
        min (pyTrunc ((cookie_based_checks : Rat) * (12 / 10))) MAX_PARALLEL_CHECKS
      else cookie_based_checks
    let change : Rat := ((new_parallel : Rat) - (s.parallel_checks : Rat)) * LEARNING_RATE
    { s with parallel_checks := (max MIN_PARALLEL_CHECKS (min MAX_PARALLEL_CHECKS
        (pyTrunc ((s.parallel_checks : Rat) + change)))) }

/-- The `length_success` dict built by the first loop of
`_adapt_length_weights`: per-length success rate for buckets with at least
five samples and at least one non-error outcome. -/
def lengthSuccess (s : ALState) : List (Int × Rat) :=
  s.recent_lengths.foldl (fun acc p =>
    if p.2.length < 5 then acc
    else
      let valid := p.2.filter (fun c => !c.error)
      if valid.isEmpty then acc
      else
        let total_valid := valid.length
        let successful := (valid.filter (fun c => c.is_available)).length
        let rate : Rat :=
          if total_valid > 0 then (successful : Rat) / (total_valid : Rat) else 0
        dictSet acc p.1 rate) []

/-- The normalized, scarcity-boosted new weights of `_adapt_length_weights`. -/
def newWeights (length_success : List (Int × Rat)) (total_score : Rat) :
    List (Int × Rat) :=
  length_success.map (fun p =>
    let length_factor : Rat := if p.1 ≤ 4 then 3 else if p.1 ≤ 6 then 3 / 2 else 1
    (p.1, (p.2 / total_score) * 100 * length_factor))

/-- The blending loop of `_adapt_length_weights`: smooth each new weight into
the existing dict with the learning rate. -/
def blendWeights (lw new_weights : List (Int × Rat)) : List (Int × Rat) :=
  new_weights.foldl (fun lw p =>
    if dictMem lw p.1 then
      dictSet lw p.1 ((1 - LEARNING_RATE) * dictGet lw p.1 0 + LEARNING_RATE * p.2)
    else dictSet lw p.1 p.2) lw

/-- The final loop of `_adapt_length_weights`: add any length missing from
the default distribution. -/
def fillDefaults (lw : List (Int × Rat)) : List (Int × Rat) :=
  LENGTH_DISTRIBUTION.foldl (fun lw p =>
    if dictMem lw p.1 then lw else dictSet lw p.1 p.2) lw

/-- `_adapt_length_weights` (adaptive_learning.py, lines 396-464). -/
def adapt_length_weights (s : ALState) : ALState :=
  let length_success := lengthSuccess s
  if length_success.isEmpty then s
  else
    let total_score := (length_success.map (fun p => p.2)).sum
    if total_score ≤ 0 then s
    else
      { s with length_weights :=
          fillDefaults (blendWeights s.length_weights
            (newWeights length_success total_score)) }

/-- Accumulators of `_adapt_character_probabilities`. -/
structure PatternTally where
  underscore_success : Rat
  non_underscore_success : Rat
  numeric_success : Rat
  non_numeric_success : Rat
  uppercase_success : Rat
  non_uppercase_success : Rat

/-- One iteration of the pattern-weight scan.  For a pattern starting with
"type:", `split(":", 1)[1]` is the suffix after the first colon, i.e.
`drop 5`. -/
def tallyPattern (t : PatternTally) (p : String × Rat) : PatternTally :=
  if p.1 = "has_underscore:True" then
    { t with underscore_success := t.underscore_success + p.2 }
  else if p.1 = "has_underscore:False" then
    { t with non_underscore_success := t.non_underscore_success + p.2 }
  else if p.1 = "has_number:True" then
    { t with numeric_success := t.numeric_success + p.2 }
  else if p.1 = "has_number:False" then
    { t with non_numeric_success := t.non_numeric_success + p.2 }
  else if p.1.startsWith "type:" && (p.1.toList.drop 5).contains 'U' then
    { t with uppercase_success := t.uppercase_success + p.2 }
  else if p.1.startsWith "type:" && !(p.1.toList.drop 5).contains 'U' then
    { t with non_uppercase_success := t.non_uppercase_success + p.2 }
  else t

/-- `_adapt_character_probabilities` (adaptive_learning.py, lines 466-512). -/
def adapt_character_probabilities (s : ALState) : ALState :=
  if s.pattern_weights.isEmpty then s
  else
    let t := s.pattern_weights.foldl tallyPattern
      { underscore_success := 0, non_underscore_success := 0, numeric_success := 0,
        non_numeric_success := 0, uppercase_success := 0, non_uppercase_success := 0 }
    let s :=
      if t.underscore_success + t.non_underscore_success > 0 then
        { s with underscore_probability :=
            (1 - LEARNING_RATE) * s.underscore_probability +
              LEARNING_RATE * (t.underscore_success /
                (t.underscore_success + t.non_underscore_success)) }
      else s
    let s :=
      if t.numeric_success + t.non_numeric_success > 0 then
        { s with numeric_probability :=
            (1 - LEARNING_RATE) * s.numeric_probability +
              LEARNING_RATE * (t.numeric_success /
                (t.numeric_success + t.non_numeric_success)) }
      else s
    if t.uppercase_success + t.non_uppercase_success > 0 then
      { s with uppercase_probability :=
          (1 - LEARNING_RATE) * s.uppercase_probability +
            LEARNING_RATE * (t.uppercase_success /
              (t.uppercase_success + t.non_uppercase_success)) }
    else s

/-- `adapt` (adaptive_learning.py, lines 259-292).  The function returns the
current parameter dict; only the state evolution matters here.  `save_state`
at the end writes the snapshot to disk and changes no in-memory state. -/
def adapt (s : ALState) : ALState :=
  if s.recent_checks.isEmpty then s
  else
    let valid := s.recent_checks.filter (fun c => !c.error)
    if valid.isEmpty then s
    else
      let total_valid := valid.length
      let successful := (valid.filter (fun c => c.is_available)).length
      let success_rate : Rat :=
        if total_valid > 0 then (successful : Rat) / (total_valid : Rat) else 0
      if total_valid < 20 then s
      else
        adapt_character_probabilities
          (adapt_length_weights (adapt_parallel_checks s success_rate))

/-- The persisted snapshot: JSON stringifies the integer keys of
`length_weights` (modelled as sign plus decimal digits); float values
round-trip exactly through Python's repr-based JSON serialization and are
modelled as the identity on exact rationals. -/
structure ALSnapshot where
  length_weights : List ((Bool × List Nat) × Rat)
  parallel_checks : Int
  pattern_weights : List (String × Rat)
  underscore_probability : Rat
  numeric_probability : Rat
  uppercase_probability : Rat

/-- `str(k)` for an integer dict key: sign and decimal digits. -/
def encodeIntKey (k : Int) : Bool × List Nat := (decide (k < 0), Nat.digits 10 k.natAbs)

/-- Python `int(str_key)` when the snapshot is read back. -/
def decodeIntKey (p : Bool × List Nat) : Int :=
  if p.1 then -((Nat.ofDigits 10 p.2 : Nat) : Int) else ((Nat.ofDigits 10 p.2 : Nat) : Int)

/-- `save_state` (adaptive_learning.py, lines 155-173), restricted to the
fields that `_load_state` reads back (`last_updated` is never restored). -/
def save_state (s : ALState) : ALSnapshot :=
  { length_weights := s.length_weights.map (fun p => (encodeIntKey p.1, p.2))
    parallel_checks := s.parallel_checks
    pattern_weights := s.pattern_weights
    underscore_probability := s.underscore_probability
    numeric_probability := s.numeric_probability
    uppercase_probability := s.uppercase_probability }

/-- `_load_state` (adaptive_learning.py, lines 128-153) applied to a snapshot
in which every key is present: each field overwrites the current state with
the proper type conversions (`int(k)`, `float(v)`, `int(parallel_checks)`,
`str(k)` — all exact in the rational model). -/
def load_state (snap : ALSnapshot) (s : ALState) : ALState :=
  { s with
    length_weights := snap.length_weights.map (fun p => (decodeIntKey p.1, p.2))
    parallel_checks := snap.parallel_checks
    pattern_weights := snap.pattern_weights
    underscore_probability := snap.underscore_probability
    numeric_probability := snap.numeric_probability
    uppercase_probability := snap.uppercase_probability }

/-- `report_cookie_error` (adaptive_learning.py, lines 604-615). -/
def report_cookie_error (s : ALState) (cookie_index : Nat) (now : Rat) : ALState :=
  if cookie_index < s.cookie_status.length then
    let s := { s with cookie_status := (updStatus s.cookie_status cookie_index
        (fun st => { st with error_count := st.error_count + 1 })) }
    if (statusAt s cookie_index).error_count ≥ ERROR_THRESHOLD then
      { s with cookie_status := (updStatus s.cookie_status cookie_index
          (fun st =>
            { st with cooldown_until := now + COOKIE_COOLDOWN, error_count := 0 })) }
    else s
  else s

/-- Python `max(l, key)` / `min(l, key)` keep the first extremal element;
call sites guard nonemptiness. -/
def pyMaxByKey (l : List Nat) (key : Nat → Rat) : Nat :=
  match l with
  | [] => 0
  | x :: xs => xs.foldl (fun best y => if key y > key best then y else best) x

/-- Python `min(l, key)`: first minimal element. -/
def pyMinByKey (l : List Nat) (key : Nat → Rat) : Nat :=
  match l with
  | [] => 0
  | x :: xs => xs.foldl (fun best y => if key y < key best then y else best) x

/-- `_select_best_cookie` (adaptive_learning.py, lines 573-602); `now` is the
`time.time()` drawn inside the function. -/
def select_best_cookie (s : ALState) (now : Rat) : (Nat × String) × ALState :=
  let available := (List.range s.cookies.length).filter
    (fun i => (statusAt s i).cooldown_until ≤ now)
  if available.isEmpty then
    let shortest := pyMinByKey (List.range s.cookies.length)
      (fun i => (statusAt s i).cooldown_until)
    ((shortest, s.cookies.getD shortest ""), s)
  else
    let best := pyMaxByKey available (fun i =>
      ((statusAt s i).success_count : Rat) /
        ((max 1 ((statusAt s i).success_count + (statusAt s i).error_count) : Int) : Rat))
    ((best, s.cookies.getD best ""), { s with current_cookie_index := best })

/-- `get_next_cookie` (adaptive_learning.py, lines 542-571); `now` is the
`time.time()` drawn at its start and `now2` the one drawn inside
`_select_best_cookie` a moment later. -/
def get_next_cookie (s : ALState) (now now2 : Rat) : (Nat × String) × ALState :=
  if s.cookies.length ≤ 1 then
    ((0, s.cookies.getD 0 ""), s)
  else
    let current_status := statusAt s s.current_cookie_index
    if current_status.cooldown_until > now ∧
        s.cookie_status.any (fun st => st.cooldown_until ≤ now) then
      select_best_cookie s now2
    else if current_status.error_count ≥ ERROR_THRESHOLD then
      let s := { s with cookie_status := (updStatus s.cookie_status s.current_cookie_index
          (fun st =>
            { st with cooldown_until := now + COOKIE_COOLDOWN, error_count := 0 })) }
      select_best_cookie s now2
    else
      ((s.current_cookie_index, s.cookies.getD s.current_cookie_index ""), s)


/-! ### Claims about the adaptive controller -/

/-- The concrete controller state of the C2 scenario: no cookies loaded,
a window of 30 outcomes with 6 available and no errors (success rate 0.2,
error rate 0.0), and the default concurrency target 10. -/
def stateC2 : ALState :=
  { initALState [] 0 with
    recent_checks :=
      List.replicate 6 { t := 0, is_available := true, error := false } ++
        List.replicate 24 { t := 0, is_available := false, error := false } }

/-- Claim C2 (code bug): in the scenario of the claim — 30 recorded outcomes
with success rate 0.2 and error rate 0.0, parallel_checks = 10,
MAX_PARALLEL_CHECKS = 50 — adapt() does not increase parallel_checks: with
zero cookies it lowers the target to 9 (the cookie-count heuristic yields 5,
smoothed into 10 by one learning-rate step and truncated), and with at least
one cookie `calculate_dynamic_values` raises `NameError` (math is never
imported) so the handler resets the target to 10.  This theorem evaluates
the embedded code at the failing input. -/
theorem alw_parallel (s : ALState) :
    (adapt_length_weights s).parallel_checks = s.parallel_checks := by
  rw [adapt_length_weights]
  dsimp only
  split_ifs <;> rfl

theorem acp_parallel (s : ALState) :
    (adapt_character_probabilities s).parallel_checks = s.parallel_checks := by
  rw [adapt_character_probabilities]
  dsimp only
  split_ifs <;> rfl

theorem adapt_parallel_eval (s : ALState) (rate : Rat)
    (hc : s.cookies.length = 0) (hp : s.parallel_checks = 10)
    (h1 : ¬ rate < 1 / 100) (h2 : rate ≥ 5 / 100) (h3 : error_rate s < 1 / 10) :
    (adapt_parallel_checks s rate).parallel_checks = 9 := by
  rw [adapt_parallel_checks, calculate_dynamic_values, if_pos hc]
  dsimp only
  rw [if_neg h1, if_pos ⟨h2, h3⟩, hp]
  have e1 : pyTrunc ((MIN_PARALLEL_CHECKS : Rat) * (12 / 10)) = 6 := by
    rw [pyTrunc, MIN_PARALLEL_CHECKS, if_neg (by norm_num)]
    norm_num
  rw [e1]
  have e2 : min (6 : Int) MAX_PARALLEL_CHECKS = 6 := by
    rw [MAX_PARALLEL_CHECKS]
    decide
  rw [e2]
  have e3 : pyTrunc (((10 : Int) : Rat) +
      (((6 : Int) : Rat) - ((10 : Int) : Rat)) * LEARNING_RATE) = 9 := by
    rw [pyTrunc, LEARNING_RATE, if_neg (by norm_num)]
    rw [show (((10 : Int) : Rat) + (((6 : Int) : Rat) - ((10 : Int) : Rat)) * (1 / 10))
        = ((9 : Int) : Rat) + (3 / 5 : Rat) by norm_num]
    have h0 : (⌊(3 / 5 : Rat)⌋ : Int) = 0 := by
      apply Int.floor_eq_zero_iff.mpr
      rw [Set.mem_Ico]
      norm_num
    rw [Int.floor_int_add, h0]
    decide
  rw [e3]
  rw [MIN_PARALLEL_CHECKS, MAX_PARALLEL_CHECKS]
  decide

theorem claim_C2 :
    stateC2.parallel_checks = 10 ∧ (adapt stateC2).parallel_checks = 9 ∧
      (adapt stateC2).parallel_checks < stateC2.parallel_checks := by
  have hpar : (adapt stateC2).parallel_checks = 9 := by
    rw [adapt]
    rw [if_neg (by decide)]
    dsimp only
    rw [if_neg (by decide)]
    rw [if_neg (by decide)]
    rw [acp_parallel, alw_parallel]
    refine adapt_parallel_eval _ _ (by decide) (by decide) ?_ ?_ ?_
    · rw [if_pos (by decide)]
      rw [show ((stateC2.recent_checks.filter (fun c => !c.error)).filter
          (fun c => c.is_available)).length = 6 from by decide]
      rw [show (stateC2.recent_checks.filter (fun c => !c.error)).length = 30 from by decide]
      norm_num
    · rw [if_pos (by decide)]
      rw [show ((stateC2.recent_checks.filter (fun c => !c.error)).filter
          (fun c => c.is_available)).length = 6 from by decide]
      rw [show (stateC2.recent_checks.filter (fun c => !c.error)).length = 30 from by decide]
      norm_num
    · rw [error_rate, if_neg (by decide)]
      dsimp only
      rw [if_pos (by decide)]
      rw [show (stateC2.recent_checks.filter (fun c => c.error)).length = 0 from by decide]
      rw [show stateC2.recent_checks.length = 30 from by decide]
      norm_num
  exact ⟨rfl, hpar, by rw [hpar]; decide⟩

/-- Integer dict keys survive the stringify/parse round trip of the JSON
snapshot. -/
theorem encodeDecode (k : Int) : decodeIntKey (encodeIntKey k) = k := by
  unfold decodeIntKey encodeIntKey
  have hd := Nat.ofDigits_digits 10 k.natAbs
  by_cases hk : k < 0
  · rw [if_pos (by simpa using hk)]
    rw [hd]
    omega
  · rw [if_neg (by simpa using hk)]
    rw [hd]
    omega

theorem map_roundtrip (l : List (Int × Rat)) :
    l.map (fun p => ((decodeIntKey (encodeIntKey p.1), p.2) : Int × Rat)) = l := by
  induction l with
  | nil => rfl
  | cons p t ih => simp [encodeDecode, ih]

/-- Claim C9: for every controller state, calling save_state() and then
_load_state() on the written snapshot reproduces identical values of
parallel_checks, length_weights (with integer keys and float values),
pattern_weights, underscore_probability, numeric_probability and
uppercase_probability. -/
theorem claim_C9 (s s₀ : ALState) :
    (load_state (save_state s) s₀).parallel_checks = s.parallel_checks ∧
    (load_state (save_state s) s₀).length_weights = s.length_weights ∧
    (load_state (save_state s) s₀).pattern_weights = s.pattern_weights ∧
    (load_state (save_state s) s₀).underscore_probability = s.underscore_probability ∧
    (load_state (save_state s) s₀).numeric_probability = s.numeric_probability ∧
    (load_state (save_state s) s₀).uppercase_probability = s.uppercase_probability := by
  refine ⟨rfl, ?_, rfl, rfl, rfl, rfl⟩
  show (s.length_weights.map (fun p => (encodeIntKey p.1, p.2))).map
      (fun p => (decodeIntKey p.1, p.2)) = s.length_weights
  rw [List.map_map]
  exact map_roundtrip s.length_weights


/-! ### Claim C6: controller invariants -/

theorem foldl_invariant {α β : Type} (P : β → Prop) :
    ∀ (l : List α) (f : β → α → β) (b : β), P b →
      (∀ x a, a ∈ l → P x → P (f x a)) → P (l.foldl f b) := by
  intro l
  induction l with
  | nil => intro f b hb _; exact hb
  | cons a t ih =>
    intro f b hb hstep
    rw [List.foldl_cons]
    exact ih f (f b a) (hstep b a (List.mem_cons_self a t) hb)
      (fun x y hy hx => hstep x y (List.mem_cons_of_mem _ hy) hx)

theorem dictSet_forall {α β : Type} [BEq α] (P : β → Prop) :
    ∀ (l : List (α × β)) (k : α) (v : β), (∀ p ∈ l, P p.2) → P v →
      ∀ p ∈ dictSet l k v, P p.2 := by
  intro l
  induction l with
  | nil =>
    intro k v _ hv p hp
    rw [dictSet] at hp
    rcases List.mem_singleton.mp hp with rfl
    exact hv
  | cons q t ih =>
    intro k v h hv p hp
    rw [dictSet] at hp
    split_ifs at hp with hq
    · rcases List.mem_cons.mp hp with rfl | hp
      · exact hv
      · exact h p (List.mem_cons_of_mem _ hp)
    · rcases List.mem_cons.mp hp with rfl | hp
      · exact h p (List.mem_cons_self _ _)
      · exact ih k v (fun x hx => h x (List.mem_cons_of_mem _ hx)) hv p hp

theorem dictGet_forall {α β : Type} [BEq α] (P : β → Prop) (l : List (α × β))
    (k : α) (d : β) (h : ∀ p ∈ l, P p.2) (hd : P d) : P (dictGet l k d) := by
  rw [dictGet]
  cases hf : l.find? (fun p => p.1 == k) with
  | none => exact hd
  | some p => exact h p (List.mem_of_find?_eq_some hf)

theorem lengthSuccess_nonneg (s : ALState) : ∀ p ∈ lengthSuccess s, 0 ≤ p.2 := by
  rw [lengthSuccess]
  refine foldl_invariant (fun acc : List (Int × Rat) => ∀ p ∈ acc, (0 : Rat) ≤ p.2) _ _ _
    (by intro p hp; cases hp) ?_
  intro acc q _ hacc
  dsimp only
  split_ifs with h1 h2 h3
  · exact hacc
  · exact hacc
  · refine dictSet_forall (fun v => (0 : Rat) ≤ v) _ _ _ hacc ?_
    positivity
  · exact dictSet_forall (fun v => (0 : Rat) ≤ v) _ _ _ hacc (le_refl 0)

theorem newWeights_nonneg {length_success : List (Int × Rat)} {total_score : Rat}
    (hls : ∀ p ∈ length_success, 0 ≤ p.2) (hts : 0 < total_score) :
    ∀ p ∈ newWeights length_success total_score, 0 ≤ p.2 := by
  intro p hp
  rw [newWeights] at hp
  rcases List.mem_map.mp hp with ⟨q, hq, rfl⟩
  dsimp only
  have hq2 := hls q hq
  split_ifs <;> positivity

theorem blendWeights_nonneg {lw nw : List (Int × Rat)}
    (hlw : ∀ p ∈ lw, 0 ≤ p.2) (hnw : ∀ p ∈ nw, 0 ≤ p.2) :
    ∀ p ∈ blendWeights lw nw, 0 ≤ p.2 := by
  rw [blendWeights]
  refine foldl_invariant (fun acc : List (Int × Rat) => ∀ p ∈ acc, (0 : Rat) ≤ p.2) _ _ _ hlw ?_
  intro acc q hq hacc
  split_ifs with h1
  · refine dictSet_forall (fun v => (0 : Rat) ≤ v) _ _ _ hacc ?_
    have hget : (0 : Rat) ≤ dictGet acc q.1 0 :=
      dictGet_forall (fun v => (0 : Rat) ≤ v) _ _ _ hacc (le_refl 0)
    have hq2 := hnw q hq
    have hlr : (0 : Rat) ≤ 1 - LEARNING_RATE := by rw [LEARNING_RATE]; norm_num
    have hlr2 : (0 : Rat) ≤ LEARNING_RATE := by rw [LEARNING_RATE]; norm_num
    have := mul_nonneg hlr hget
    have := mul_nonneg hlr2 hq2
    linarith
  · exact dictSet_forall (fun v => (0 : Rat) ≤ v) _ _ _ hacc (hnw q hq)

theorem fillDefaults_nonneg {lw : List (Int × Rat)} (hlw : ∀ p ∈ lw, 0 ≤ p.2) :
    ∀ p ∈ fillDefaults lw, 0 ≤ p.2 := by
  rw [fillDefaults]
  refine foldl_invariant (fun acc : List (Int × Rat) => ∀ p ∈ acc, (0 : Rat) ≤ p.2) _ _ _ hlw ?_
  intro acc q hq hacc
  split_ifs with h1
  · exact hacc
  · refine dictSet_forall (fun v => (0 : Rat) ≤ v) _ _ _ hacc ?_
    have hd : ∀ p ∈ LENGTH_DISTRIBUTION, (0 : Rat) ≤ p.2 := by decide
    exact hd q hq

theorem alw_nonneg (s : ALState) (h : ∀ p ∈ s.length_weights, 0 ≤ p.2) :
    ∀ p ∈ (adapt_length_weights s).length_weights, 0 ≤ p.2 := by
  rw [adapt_length_weights]
  dsimp only
  by_cases h1 : (lengthSuccess s).isEmpty = true
  · rw [if_pos h1]; exact h
  rw [if_neg h1]
  by_cases h2 : ((lengthSuccess s).map (fun p => p.2)).sum ≤ 0
  · rw [if_pos h2]; exact h
  rw [if_neg h2]
  dsimp only
  refine fillDefaults_nonneg (blendWeights_nonneg h ?_)
  exact newWeights_nonneg (lengthSuccess_nonneg s) (lt_of_not_le h2)

theorem apc_bounds (s : ALState) (rate : Rat) :
    MIN_PARALLEL_CHECKS ≤ (adapt_parallel_checks s rate).parallel_checks ∧
      (adapt_parallel_checks s rate).parallel_checks ≤ MAX_PARALLEL_CHECKS := by
  rw [adapt_parallel_checks]
  cases hcd : calculate_dynamic_values s with
  | error e =>
    constructor
    · show MIN_PARALLEL_CHECKS ≤ (10 : Int)
      decide
    · show (10 : Int) ≤ MAX_PARALLEL_CHECKS
      decide
  | ok cb =>
    constructor
    · exact le_max_left _ _
    · refine max_le (by decide) (min_le_left _ _)

theorem apc_lw (s : ALState) (rate : Rat) :
    (adapt_parallel_checks s rate).length_weights = s.length_weights := by
  rw [adapt_parallel_checks]
  cases calculate_dynamic_values s <;> rfl

theorem acp_lw (s : ALState) :
    (adapt_character_probabilities s).length_weights = s.length_weights := by
  rw [adapt_character_probabilities]
  dsimp only
  split_ifs <;> rfl

theorem record_check_parallel (s : ALState) (u : String) (ia err : Bool) (now : Rat) :
    (record_check s u ia err now).parallel_checks = s.parallel_checks := by
  rw [record_check]
  dsimp only
  split_ifs <;> rfl

theorem record_check_lw (s : ALState) (u : String) (ia err : Bool) (now : Rat) :
    (record_check s u ia err now).length_weights = s.length_weights := by
  rw [record_check]
  dsimp only
  split_ifs <;> rfl

theorem report_cookie_error_parallel (s : ALState) (i : Nat) (now : Rat) :
    (report_cookie_error s i now).parallel_checks = s.parallel_checks := by
  rw [report_cookie_error]
  dsimp only
  split_ifs <;> rfl

theorem report_cookie_error_lw (s : ALState) (i : Nat) (now : Rat) :
    (report_cookie_error s i now).length_weights = s.length_weights := by
  rw [report_cookie_error]
  dsimp only
  split_ifs <;> rfl

theorem select_best_cookie_parallel (s : ALState) (now : Rat) :
    (select_best_cookie s now).2.parallel_checks = s.parallel_checks := by
  rw [select_best_cookie]
  dsimp only
  split_ifs <;> rfl

theorem select_best_cookie_lw (s : ALState) (now : Rat) :
    (select_best_cookie s now).2.length_weights = s.length_weights := by
  rw [select_best_cookie]
  dsimp only
  split_ifs <;> rfl

theorem get_next_cookie_parallel (s : ALState) (now now2 : Rat) :
    (get_next_cookie s now now2).2.parallel_checks = s.parallel_checks := by
  rw [get_next_cookie]
  dsimp only
  split_ifs <;> first
    | rfl
    | rw [select_best_cookie_parallel]

theorem get_next_cookie_lw (s : ALState) (now now2 : Rat) :
    (get_next_cookie s now now2).2.length_weights = s.length_weights := by
  rw [get_next_cookie]
  dsimp only
  split_ifs <;> first
    | rfl
    | rw [select_best_cookie_lw]

/-- States of the adaptive controller reachable from a fresh
`AdaptiveLearning()` (no prior snapshot on disk) by recording outcomes,
running `adapt()`, cookie reporting/rotation, and restoring a snapshot that
`save_state` persisted from some other reachable state. -/
inductive ALReach : ALState → Prop where
  | init (cookies : List String) (now : Rat) : ALReach (initALState cookies now)
  | record {s : ALState} (h : ALReach s) (username : String)
      (is_available error : Bool) (now : Rat) :
      ALReach (record_check s username is_available error now)
  | adaptStep {s : ALState} (h : ALReach s) : ALReach (adapt s)
  | loadSaved {s s' : ALState} (h : ALReach s) (h' : ALReach s') :
      ALReach (load_state (save_state s') s)
  | cookieErr {s : ALState} (h : ALReach s) (i : Nat) (now : Rat) :
      ALReach (report_cookie_error s i now)
  | nextCookie {s : ALState} (h : ALReach s) (now now2 : Rat) :
      ALReach ((get_next_cookie s now now2).2)

/-- Claim C6: starting from the initial controller state, after any number
of adapt() calls (including calls whose internal adaptation raises and is
caught) and any restore of a persisted snapshot, the concurrency target
satisfies MIN_PARALLEL_CHECKS (5) ≤ parallel_checks ≤ MAX_PARALLEL_CHECKS
(50), and every value in length_weights is non-negative. -/
theorem claim_C6 (s : ALState) (h : ALReach s) :
    MIN_PARALLEL_CHECKS ≤ s.parallel_checks ∧
      s.parallel_checks ≤ MAX_PARALLEL_CHECKS ∧
      ∀ p ∈ s.length_weights, 0 ≤ p.2 := by
  induction h with
  | init cookies now =>
    refine ⟨?_, ?_, ?_⟩
    · show MIN_PARALLEL_CHECKS ≤ (10 : Int)
      decide
    · show (10 : Int) ≤ MAX_PARALLEL_CHECKS
      decide
    · show ∀ p ∈ LENGTH_DISTRIBUTION, (0 : Rat) ≤ p.2
      decide
  | @record s hs username ia err now ih =>
    rw [record_check_parallel, record_check_lw]
    exact ih
  | @adaptStep s hs ih =>
    rw [adapt]
    by_cases h1 : s.recent_checks.isEmpty = true
    · rw [if_pos h1]; exact ih
    rw [if_neg h1]
    dsimp only
    by_cases h2 : (s.recent_checks.filter (fun c => !c.error)).isEmpty = true
    · rw [if_pos h2]; exact ih
    rw [if_neg h2]
    by_cases h3 : (s.recent_checks.filter (fun c => !c.error)).length < 20
    · rw [if_pos h3]; exact ih
    rw [if_neg h3]
    rw [acp_parallel, alw_parallel, acp_lw]
    exact ⟨(apc_bounds _ _).1, (apc_bounds _ _).2,
      alw_nonneg _ (by rw [apc_lw]; exact ih.2.2)⟩
  | @loadSaved s s' hs hs' ih ih' =>
    rw [load_state]
    refine ⟨ih'.1, ih'.2.1, ?_⟩
    dsimp only
    rw [save_state]
    dsimp only
    rw [List.map_map]
    intro p hp
    rcases List.mem_map.mp hp with ⟨q, hq, rfl⟩
    exact ih'.2.2 q hq
  | @cookieErr s hs i now ih =>
    rw [report_cookie_error_parallel, report_cookie_error_lw]
    exact ih
  | @nextCookie s hs now now2 ih =>
    rw [get_next_cookie_parallel, get_next_cookie_lw]
    exact ih

/-- Witness for C6: the invariant holds of the freshly initialized
controller. -/
theorem claim_C6_witness :
    MIN_PARALLEL_CHECKS ≤ (initALState [] 0).parallel_checks ∧
      (initALState [] 0).parallel_checks ≤ MAX_PARALLEL_CHECKS ∧
      ∀ p ∈ (initALState [] 0).length_weights, 0 ≤ p.2 :=
  claim_C6 (initALState [] 0) (ALReach.init [] 0)

/-! ### Cookie rotation (claim C5) -/

theorem getD_set_eq_of_lt {α : Type} (l : List α) (v d : α) (i : Nat)
    (h : i < l.length) : (l.set i v).getD i d = v := by
  have h' : i < (l.set i v).length := by simpa using h
  rw [List.getD_eq_getElem _ _ h']
  exact List.getElem_set_self h'

theorem getD_set_ne_idx {α : Type} (l : List α) (v d : α) (i j : Nat)
    (hne : j ≠ i) : (l.set i v).getD j d = l.getD j d := by
  by_cases hj : j < l.length
  · have h' : j < (l.set i v).length := by simpa using hj
    rw [List.getD_eq_getElem _ _ h', List.getD_eq_getElem _ _ hj]
    exact List.getElem_set_ne (fun he => hne he.symm) _
  · push_neg at hj
    rw [List.getD_eq_default _ _ (by simpa using hj), List.getD_eq_default _ _ hj]

theorem pyMaxByKey_mem (l : List Nat) (key : Nat → Rat) (h : l ≠ []) :
    pyMaxByKey l key ∈ l := by
  cases l with
  | nil => exact absurd rfl h
  | cons x xs =>
    rw [pyMaxByKey]
    refine foldl_invariant (fun b => b ∈ x :: xs) xs _ x (List.mem_cons_self _ _) ?_
    intro b a ha hb
    dsimp only
    split_ifs
    · exact List.mem_cons_of_mem _ ha
    · exact hb

/-- `report_cookie_error` on a cookie whose error count is about to reach the
threshold: the cookie enters a 300-second cooldown and its counter resets. -/
theorem report_cookie_error_threshold (s : ALState) (i : Nat) (now : Rat)
    (hi : i < s.cookie_status.length)
    (hthr : (statusAt s i).error_count + 1 ≥ ERROR_THRESHOLD) :
    (statusAt (report_cookie_error s i now) i).cooldown_until =
        now + COOKIE_COOLDOWN ∧
      (statusAt (report_cookie_error s i now) i).error_count = 0 := by
  rw [report_cookie_error]
  rw [if_pos hi]
  dsimp only
  have hcond : (statusAt { s with cookie_status := (updStatus s.cookie_status i
      (fun st => { st with error_count := st.error_count + 1 })) } i).error_count
      ≥ ERROR_THRESHOLD := by
    have hstat1 : statusAt { s with cookie_status := (updStatus s.cookie_status i
        (fun st => { st with error_count := st.error_count + 1 })) } i
        = { statusAt s i with error_count := (statusAt s i).error_count + 1 } := by
      rw [statusAt, statusAt, updStatus]
      dsimp only
      rw [getD_set_eq_of_lt _ _ _ _ hi]
    rw [hstat1]
    exact hthr
  rw [if_pos hcond]
  rw [statusAt, updStatus]
  dsimp only
  rw [getD_set_eq_of_lt _ _ _ _ (by simpa [updStatus] using hi)]
  exact ⟨rfl, rfl⟩

/-- When some cookie `j` is outside cooldown at the clock reading `now2`,
`_select_best_cookie` takes the nonempty-available branch and returns a
cookie that is itself outside cooldown at `now2`; the cookie statuses are
unchanged. -/
theorem select_best_cookie_avoids (s : ALState) (now2 : Rat) (j : Nat)
    (hj : j < s.cookies.length)
    (hjcd : (statusAt s j).cooldown_until ≤ now2) :
    (statusAt (select_best_cookie s now2).2
        (select_best_cookie s now2).1.1).cooldown_until ≤ now2 := by
  rw [select_best_cookie]
  dsimp only
  have hjav : j ∈ (List.range s.cookies.length).filter
      (fun i => decide ((statusAt s i).cooldown_until ≤ now2)) := by
    rw [List.mem_filter]
    exact ⟨List.mem_range.mpr hj, by simpa using hjcd⟩
  have hne : ¬ ((List.range s.cookies.length).filter
      (fun i => decide ((statusAt s i).cooldown_until ≤ now2))).isEmpty = true := by
    rcases hl : (List.range s.cookies.length).filter
        (fun i => decide ((statusAt s i).cooldown_until ≤ now2)) with _ | ⟨a, t⟩
    · rw [hl] at hjav; cases hjav
    · simp [List.isEmpty]
  rw [if_neg hne]
  dsimp only
  have hmem := pyMaxByKey_mem ((List.range s.cookies.length).filter
      (fun i => decide ((statusAt s i).cooldown_until ≤ now2)))
    (fun i => ((statusAt s i).success_count : Rat) /
      ((max 1 ((statusAt s i).success_count + (statusAt s i).error_count) : Int) : Rat))
    (fun he => hne (by rw [he]; rfl))
  rw [List.mem_filter] at hmem
  have := of_decide_eq_true hmem.2
  simpa [statusAt] using this

/-- The concrete two-cookie state behind the C5 counterexample, before the
second cookie hits the error threshold: cookie 0 (the current one) already
has 5 accumulated errors and no cooldown, cookie 1 has 4 errors and no
cooldown. -/
def stateC5pre : ALState :=
  { initALState ["a", "b"] 0 with
    cookie_status :=
      [{ last_used := 0, success_count := 0, error_count := 5, cooldown_until := 0 },
       { last_used := 0, success_count := 0, error_count := 4, cooldown_until := 0 }] }

/-- The two-cookie state the C5 counterexample reaches after the threshold
report: cookie 1 is in cooldown until time 1050 with its counter reset,
cookie 0 (the current cookie) has 5 accumulated errors and no cooldown. -/
def stateC5 : ALState :=
  { initALState ["a", "b"] 0 with
    cookie_status :=
      [{ last_used := 0, success_count := 0, error_count := 5, cooldown_until := 0 },
       { last_used := 0, success_count := 0, error_count := 0, cooldown_until := 1050 }] }

/-- A two-cookie state for exercising C5 at concrete inputs: the current
cookie 0 has 4 errors, cookie 1 is healthy, nothing is in cooldown. -/
def stateC5w : ALState :=
  { initALState ["a", "b"] 0 with
    cookie_status :=
      [{ last_used := 0, success_count := 0, error_count := 4, cooldown_until := 0 },
       { last_used := 0, success_count := 0, error_count := 0, cooldown_until := 0 }] }

/-- Claim C5 (corrected): a cookie whose error count reaches
ERROR_THRESHOLD = 5 in `report_cookie_error` is placed in cooldown for
COOKIE_COOLDOWN = 300 seconds with its error counter reset; and
`get_next_cookie` returns a cookie that is outside cooldown at its second
clock reading, provided the clock is monotone and some cookie OTHER THAN
THE CURRENT one is outside cooldown when the call starts.  (The original
guard — some cookie other than the cooled one being outside cooldown — is
not sufficient: `get_next_cookie` may first cool the current cookie and
then fall back to the minimum-cooldown cookie, returning a cookie that is
still cooling; see the counterexample.) -/
theorem claim_C5 (s : ALState) (i : Nat) (now now2 : Rat)
    (hi : i < s.cookie_status.length)
    (hthr : (statusAt s i).error_count + 1 ≥ ERROR_THRESHOLD)
    (hlen : s.cookie_status.length = s.cookies.length)
    (h2 : 2 ≤ s.cookies.length)
    (hmono : now ≤ now2)
    (hfree : ∃ j, j < s.cookies.length ∧ j ≠ s.current_cookie_index ∧
        (statusAt s j).cooldown_until ≤ now) :
    ((statusAt (report_cookie_error s i now) i).cooldown_until =
        now + COOKIE_COOLDOWN ∧
      (statusAt (report_cookie_error s i now) i).error_count = 0) ∧
    (statusAt (get_next_cookie s now now2).2
        (get_next_cookie s now now2).1.1).cooldown_until ≤ now2 := by
  refine ⟨report_cookie_error_threshold s i now hi hthr, ?_⟩
  obtain ⟨j, hj, hjne, hjcd⟩ := hfree
  rw [get_next_cookie]
  rw [if_neg (by omega : ¬ s.cookies.length ≤ 1)]
  dsimp only
  by_cases hg1 : (statusAt s s.current_cookie_index).cooldown_until > now ∧
      s.cookie_status.any (fun st => st.cooldown_until ≤ now) = true
  · rw [if_pos hg1]
    exact select_best_cookie_avoids s now2 j hj (le_trans hjcd hmono)
  · rw [if_neg hg1]
    by_cases hg2 : (statusAt s s.current_cookie_index).error_count ≥ ERROR_THRESHOLD
    · rw [if_pos hg2]
      refine select_best_cookie_avoids _ now2 j ?_ ?_
      · exact hj
      · have hsame : statusAt { s with cookie_status := (updStatus s.cookie_status
            s.current_cookie_index (fun st =>
              { st with cooldown_until := now + COOKIE_COOLDOWN, error_count := 0 })) } j
            = statusAt s j := by
          rw [statusAt, statusAt, updStatus]
          dsimp only
          exact getD_set_ne_idx _ _ _ _ _ hjne
        rw [hsame]
        exact le_trans hjcd hmono
    · rw [if_neg hg2]
      dsimp only
      have hj' : j < s.cookie_status.length := by omega
      have hany : s.cookie_status.any (fun st => st.cooldown_until ≤ now) = true := by
        rw [List.any_eq_true]
        refine ⟨s.cookie_status.getD j default, ?_, ?_⟩
        · rw [List.getD_eq_getElem _ _ hj']
          exact List.getElem_mem _
        · simpa [statusAt] using hjcd
      rcases not_and_or.mp hg1 with hcd | hany'
      · push_neg at hcd
        exact le_trans (by simpa [statusAt] using hcd) hmono
      · exact absurd hany hany'

/-- Counterexample to C5 as stated: starting from `stateC5pre` (cookie 1 at
4 errors), one more `report_cookie_error` at time 750 puts cookie 1 in
cooldown until 1050 with its counter reset (yielding `stateC5`); at time
1000 cookie 1 is still cooling and cookie 0 — a cookie other than cookie 1
— is not in cooldown, yet `get_next_cookie` (both clock readings 1000)
returns cookie index 1. -/
theorem claim_C5_counterexample :
    report_cookie_error stateC5pre 1 750 = stateC5 ∧
      (statusAt stateC5 0).cooldown_until ≤ 1000 ∧
      (statusAt stateC5 1).error_count = 0 ∧
      (1000 : Rat) < (statusAt stateC5 1).cooldown_until ∧
      (get_next_cookie stateC5 1000 1000).1.1 = 1 := by
  refine ⟨?_, ?_, ?_, ?_, ?_⟩
  · norm_num [report_cookie_error, stateC5pre, stateC5, initALState, updStatus,
      statusAt, ERROR_THRESHOLD, COOKIE_COOLDOWN]
  · norm_num [stateC5, initALState, statusAt]
  · norm_num [stateC5, initALState, statusAt]
  · norm_num [stateC5, initALState, statusAt]
  · norm_num [get_next_cookie, select_best_cookie, pyMinByKey, stateC5,
      initALState, statusAt, updStatus, ERROR_THRESHOLD, COOKIE_COOLDOWN,
      List.range_succ, List.filter_cons]

/-- Witness for C5: at the concrete state `stateC5w`, reporting one more
error on cookie 0 at time 0 cools it until 300 with counter reset, and
`get_next_cookie` returns a cookie outside cooldown. -/
theorem claim_C5_witness :
    ((statusAt (report_cookie_error stateC5w 0 0) 0).cooldown_until =
        0 + COOKIE_COOLDOWN ∧
      (statusAt (report_cookie_error stateC5w 0 0) 0).error_count = 0) ∧
    (statusAt (get_next_cookie stateC5w 0 0).2
        (get_next_cookie stateC5w 0 0).1.1).cooldown_until ≤ 0 :=
  claim_C5 stateC5w 0 0 0 (by decide) (by decide) (by decide) (by decide)
    (by decide) ⟨1, by decide, by decide, by decide⟩

/-! ### roblox_api.py and database.py: the availability checker

The checker's collaborators are oracles: `net` gives the outcome of the
k-th HTTP request made by `make_http_request` (which catches every
exception internally and surfaces it as status -1, so each outcome is an
arbitrary status plus the `json.loads` parse of the body text — `none`
models a body that raises JSONDecodeError); `dbCooldown`/`dbStatus` give
the results of `is_username_in_cooldown`/`get_username_status`, which
catch all database errors internally (database.py lines 104-174);
`clock` gives successive `time.time()` readings.  Database writes
(`record_username_check`) and the exact text of log/error messages do not
feed back into any return value and are abstracted: messages are fixed
placeholder strings. -/

/-- One JSON value, as returned by `json.loads`. -/
inductive Json where
  | null
  | jbool (b : Bool)
  | num (q : Rat)
  | str (s : String)
  | arr (elems : List Json)
  | obj (fields : List (String × Json))

/-- Python `key in data` for a parsed JSON value: key lookup on dicts,
element equality on lists, substring test on strings, TypeError
otherwise. -/
def pyContains (j : Json) (key : String) : Except Unit Bool :=
  match j with
  | .obj fields => .ok (fields.any (fun p => p.1 == key))
  | .arr elems => .ok (elems.any (fun e =>
      match e with
      | .str s => s == key
      | _ => false))
  | .str s => .ok (decide (List.IsInfix key.toList s.toList))
  | _ => .error ()

/-- Python `data[key]`: lookup on dicts (KeyError when absent), TypeError
on every other JSON value (string keys cannot index lists or strings). -/
def pyGetItem (j : Json) (key : String) : Except Unit Json :=
  match j with
  | .obj fields =>
    match fields.find? (fun p => p.1 == key) with
    | some p => .ok p.2
    | none => .error ()
  | _ => .error ()

/-- Python `data.get(key, d)`: only dicts have `.get` (AttributeError
otherwise). -/
def pyGet (j : Json) (key : String) (d : Json) : Except Unit Json :=
  match j with
  | .obj fields =>
    match fields.find? (fun p => p.1 == key) with
    | some p => .ok p.2
    | none => .ok d
  | _ => .error ()

/-- Python `v == 0` for a JSON value (`False == 0` holds in Python). -/
def pyEqZero (j : Json) : Bool :=
  match j with
  | .num q => q == 0
  | .jbool b => !b
  | _ => false

/-- The checker's test `'code' in data and data['code'] == 0`
(roblox_api.py lines 697, 827), with Python's short-circuit `and`. -/
def codeIsZero (data : Json) : Except Unit Bool :=
  match pyContains data "code" with
  | .error e => .error e
  | .ok c =>
    if c then
      match pyGetItem data "code" with
      | .error e => .error e
      | .ok v => .ok (pyEqZero v)
    else .ok false

/-- The 200-status handler shared by both check functions (roblox_api.py
lines 690-707 and 819-834): available iff `code == 0`; the unavailable
branch still evaluates `data.get`, which raises on non-dict values. -/
def process200 (data : Json) : Except Unit (Bool × String) :=
  match codeIsZero data with
  | .error e => .error e
  | .ok z =>
    if z then .ok (true, "Username is available")
    else
      match pyGet data "code" (.str "unknown") with
      | .error e => .error e
      | .ok _ =>
        match pyGet data "message" (.str "Unknown reason") with
        | .error e => .error e
        | .ok _ => .ok (false, "Code and message")

/-- One mutable entry of `API_ENDPOINTS` (roblox_api.py lines 60-115);
the fields that never change (url, params, name) are dropped. -/
structure Endpoint where
  delay : Rat
  rate_limit_count : Int
  last_request : Rat
  success_streak : Int
  enabled : Bool
  headers_index : Nat
deriving DecidableEq

instance : Inhabited Endpoint :=
  ⟨{ delay := 0, rate_limit_count := 0, last_request := 0,
     success_streak := 0, enabled := false, headers_index := 0 }⟩

/-- The k-th network outcome: the HTTP status (-1 when the request raised
and `make_http_request` swallowed the exception) and the `json.loads`
parse of the body text. -/
structure NetResp where
  status : Int
  body : Option Json

/-- The read-only collaborators; nothing in the module ever writes to
them. -/
structure Oracle where
  net : Nat → NetResp
  dbCooldown : String → Bool
  dbStatus : String → Option (Bool × Int × String)
  clock : Nat → Rat

/-- The module's mutable state: the endpoint table, the rotation index,
the in-memory cache (username ↦ (triple, timestamp)), the shared
AdaptiveLearning instance, and how many network requests / clock readings
have been consumed. -/
structure World where
  endpoints : List Endpoint
  current_api_index : Nat
  memory_cache : List (String × ((Bool × Int × String) × Rat))
  adaptive : ALState
  netCalls : Nat
  clockCalls : Nat
  o : Oracle

/-- `API_ENDPOINTS[i]` (callers guard the index). -/
def epAt (w : World) (i : Nat) : Endpoint := w.endpoints.getD i default

/-- In-place update of one endpoint table entry. -/
def setEp (w : World) (i : Nat) (e : Endpoint) : World :=
  { w with endpoints := w.endpoints.set i e }

/-- `MEMORY_CACHE_EXPIRY = 60` (roblox_api.py line 125). -/
def MEMORY_CACHE_EXPIRY : Rat := 60

/-- `memory_cache[username] = (is_available, status_code, message,
current_time)`. -/
def cachePut (w : World) (u : String) (t : Bool × Int × String) (ts : Rat) :
    World :=
  { w with memory_cache := dictSet w.memory_cache u (t, ts) }

/-- `username in memory_cache` plus the lookup. -/
def cacheFind (w : World) (u : String) : Option ((Bool × Int × String) × Rat) :=
  (w.memory_cache.find? (fun p => p.1 == u)).map (fun p => p.2)

/-- `time.time()`: read the clock oracle and advance it. -/
def drawClock (w : World) : Rat × World :=
  (w.o.clock w.clockCalls, { w with clockCalls := w.clockCalls + 1 })

/-- `make_http_request` (roblox_api.py lines 296-374): consume the next
network outcome; every exception is caught inside and returned as status
-1, so the call itself never raises. -/
def make_http_request (w : World) : NetResp × World :=
  (w.o.net w.netCalls, { w with netCalls := w.netCalls + 1 })

/-- `adaptive_system.record_check(username, ok, error=err)`, drawing the
clock for the record's timestamp. -/
def recordCheckAdaptive (w : World) (u : String) (ia err : Bool) : World :=
  { w with
    adaptive := record_check w.adaptive u ia err ((drawClock w).1),
    clockCalls := ((drawClock w).2).clockCalls }

/-- `adaptive_system.adapt()`. -/
def adaptWorld (w : World) : World := { w with adaptive := adapt w.adaptive }

/-- The per-endpoint body of `update_api_delays` (roblox_api.py lines
376-391): the rate-limit branch takes priority (`elif`), so a streak of
successes only lowers the delay when `rate_limit_count` is 0. -/
def updateEndpointDelay (ep : Endpoint) : Endpoint :=
  if ep.rate_limit_count > 0 then
    { ep with delay := min 5 (1 / 2 + (ep.rate_limit_count : Rat) * (1 / 2)) }
  else if ep.success_streak ≥ 10 then
    { ep with delay := max (2 / 10) (ep.delay - 1 / 10), success_streak := 0 }
  else ep

/-- `update_api_delays` (roblox_api.py lines 376-391). -/
def update_api_delays (w : World) : World :=
  { w with endpoints := w.endpoints.map updateEndpointDelay }

/-- The disable-and-ensure block shared by the two check functions
(roblox_api.py lines 643-656 and 858-871): disable endpoint `i`; if no
endpoint is left enabled, re-enable endpoint 0 and reset its
rate-limit counter. -/
def disableAndEnsure (w : World) (i : Nat) : World :=
  let w := setEp w i { epAt w i with enabled := false }
  if w.endpoints.any (fun ep => ep.enabled) then w
  else setEp w 0 { epAt w 0 with enabled := true, rate_limit_count := 0 }

/-- The `for i in range(len)` scan of `select_next_api` (lines 400-406):
first enabled endpoint at offset ≥ 0 from the current index. -/
def findEnabledFrom (w : World) (start : Nat) : Option Nat :=
  (List.range w.endpoints.length).findSome? (fun i =>
    if (epAt w ((start + i) % w.endpoints.length)).enabled then
      some ((start + i) % w.endpoints.length)
    else none)

/-- The `for i in range(1, len)` scan of `select_next_api` (lines
418-430): first enabled alternative whose delay has elapsed. -/
def altScan (w : World) (now : Rat) : Option Nat :=
  ((List.range w.endpoints.length).drop 1).findSome? (fun i =>
    if (epAt w ((w.current_api_index + i) % w.endpoints.length)).enabled then
      if now - (epAt w ((w.current_api_index + i) % w.endpoints.length)).last_request
          ≥ (epAt w ((w.current_api_index + i) % w.endpoints.length)).delay then
        some ((w.current_api_index + i) % w.endpoints.length)
      else none
    else none)

/-- The closing scan of `select_next_api` (lines 432-447): among enabled
endpoints still inside their delay, the one with the least remaining
wait (`float('inf')` is `none`); defaults to the current index. -/
def bestWait (w : World) (now : Rat) : Nat :=
  ((List.range w.endpoints.length).foldl (fun acc i =>
    if (epAt w i).enabled then
      if now - (epAt w i).last_request < (epAt w i).delay then
        match acc.1 with
        | none => (some ((epAt w i).delay - (now - (epAt w i).last_request)), i)
        | some bw =>
          if (epAt w i).delay - (now - (epAt w i).last_request) < bw then
            (some ((epAt w i).delay - (now - (epAt w i).last_request)), i)
          else acc
      else acc
    else acc) ((none : Option Rat), w.current_api_index)).2

/-- `select_next_api` (roblox_api.py lines 392-453). -/
def select_next_api (w : World) : Nat × World :=
  let current_time := (drawClock w).1
  let w := (drawClock w).2
  let w :=
    if (epAt w w.current_api_index).enabled then w
    else
      match findEnabledFrom w w.current_api_index with
      | some idx => { w with current_api_index := idx }
      | none =>
        { setEp w 0 { epAt w 0 with enabled := true } with current_api_index := 0 }
  if current_time - (epAt w w.current_api_index).last_request
      ≥ (epAt w w.current_api_index).delay then
    (w.current_api_index, w)
  else
    match altScan w current_time with
    | some alt => (alt, { w with current_api_index := alt })
    | none =>
      (bestWait w current_time, { w with current_api_index := bestWait w current_time })

/-- The try-block of `check_with_specific_api` (roblox_api.py lines
785-848); an `Except.error` carries the world at the moment the uncaught
exception (from the JSON value handling) was raised. -/
def checkSpecificTry (username : String) (api_index : Nat) (current_time : Rat)
    (w : World) : Except World ((Bool × Int × String) × World) :=
  let resp := (make_http_request w).1
  let w := (make_http_request w).2
  if resp.status = 429 then
    let w := setEp w api_index { epAt w api_index with
      rate_limit_count := (epAt w api_index).rate_limit_count + 1,
      success_streak := 0 }
    let w := update_api_delays w
    let w := cachePut w username (false, 429, "All APIs rate limited") current_time
    .ok ((false, 429, "All APIs rate limited"), w)
  else
    match resp.body with
    | none =>
      let w := setEp w api_index { epAt w api_index with success_streak := 0 }
      let w := cachePut w username (false, resp.status, "Invalid JSON response")
        current_time
      .ok ((false, resp.status, "Invalid JSON response"), w)
    | some data =>
      if resp.status = 200 then
        let w := setEp w api_index { epAt w api_index with
          success_streak := (epAt w api_index).success_streak + 1 }
        match process200 data with
        | .error _ => .error w
        | .ok pr =>
          let w := cachePut w username (pr.1, resp.status, pr.2) current_time
          .ok ((pr.1, resp.status, pr.2), w)
      else
        let w := setEp w api_index { epAt w api_index with success_streak := 0 }
        let w := cachePut w username (false, resp.status, "API Error") current_time
        .ok ((false, resp.status, "API Error"), w)

/-- The body of `check_with_specific_api` past the cooldown short-circuit
(roblox_api.py lines 765-886).  The `except asyncio.TimeoutError` handler
is dead code — `make_http_request` catches every exception itself — so
every raise lands in the final `except Exception` handler, which zeroes
the streak, caches and returns `(False, 0, message)`. -/
def checkSpecificMain (username : String) (api_index : Nat) (w : World) :
    (Bool × Int × String) × World :=
  let current_time := (drawClock w).1
  let w := (drawClock w).2
  let t2 := (drawClock w).1
  let w := (drawClock w).2
  let w := setEp w api_index { epAt w api_index with last_request := t2 }
  match checkSpecificTry username api_index current_time w with
  | .ok r => r
  | .error we =>
    let w := setEp we api_index { epAt we api_index with success_streak := 0 }
    let w := cachePut w username (false, 0, "Error with endpoint") current_time
    ((false, 0, "Error with endpoint"), w)

/-- `check_with_specific_api` (roblox_api.py lines 744-886). -/
def check_with_specific_api (username : String) (api_index : Nat) (w : World) :
    (Bool × Int × String) × World :=
  if w.o.dbCooldown username then
    match w.o.dbStatus username with
    | some st => (st, w)
    | none => checkSpecificMain username api_index w
  else checkSpecificMain username api_index w

/-- The `for i in range(1, len)` alternative scan of the network-error
branch (roblox_api.py lines 659-664). -/
def altEnabled (w : World) (api_index : Nat) : Option Nat :=
  ((List.range w.endpoints.length).drop 1).findSome? (fun i =>
    if (epAt w ((api_index + i) % w.endpoints.length)).enabled then
      some ((api_index + i) % w.endpoints.length)
    else none)

/-- The try-block of `check_username_availability` (roblox_api.py lines
610-731). -/
def checkMainTry (username : String) (api_index : Nat) (current_time : Rat)
    (w : World) : Except World ((Bool × Int × String) × World) :=
  let resp := (make_http_request w).1
  let w := (make_http_request w).2
  if resp.status = 429 then
    let w := setEp w api_index { epAt w api_index with
      rate_limit_count := (epAt w api_index).rate_limit_count + 1,
      success_streak := 0 }
    let w := update_api_delays w
    .ok (check_with_specific_api username ((api_index + 1) % w.endpoints.length) w)
  else if resp.status = -1 then
    let w := setEp w api_index { epAt w api_index with
      success_streak := 0,
      rate_limit_count := (epAt w api_index).rate_limit_count + 1 }
    let w := if (epAt w api_index).rate_limit_count ≥ 5 then
        disableAndEnsure w api_index
      else w
    match altEnabled w api_index with
    | some alt => .ok (check_with_specific_api username alt w)
    | none =>
      let w := cachePut w username (false, resp.status, "Network error") current_time
      .ok ((false, resp.status, "Network error"), w)
  else
    match resp.body with
    | none =>
      let w := setEp w api_index { epAt w api_index with success_streak := 0 }
      let w := cachePut w username (false, resp.status, "Invalid JSON response")
        current_time
      let w := recordCheckAdaptive w username false true
      .ok ((false, resp.status, "Invalid JSON response"), w)
    | some data =>
      if resp.status = 200 then
        let w := setEp w api_index { epAt w api_index with
          success_streak := (epAt w api_index).success_streak + 1 }
        match process200 data with
        | .error _ => .error w
        | .ok pr =>
          let w := cachePut w username (pr.1, resp.status, pr.2) current_time
          let w := recordCheckAdaptive w username pr.1 false
          let w := if (epAt w api_index).success_streak ≥ 10 then
              adaptWorld (update_api_delays w)
            else w
          .ok ((pr.1, resp.status, pr.2), w)
      else
        let w := setEp w api_index { epAt w api_index with success_streak := 0 }
        let w := cachePut w username (false, resp.status, "API Error") current_time
        .ok ((false, resp.status, "API Error"), w)

/-- The body of `check_username_availability` past the cooldown and cache
short-circuits (roblox_api.py lines 596-731 plus the final `except
Exception` handler at lines 733-741). -/
def checkMain2 (username : String) (current_time : Rat) (w : World) :
    (Bool × Int × String) × World :=
  let api_index := (select_next_api w).1
  let w := (select_next_api w).2
  let w := setEp w api_index { epAt w api_index with last_request := current_time }
  match checkMainTry username api_index current_time w with
  | .ok r => r
  | .error we =>
    let w := setEp we api_index { epAt we api_index with success_streak := 0 }
    let w := cachePut w username (false, 0, "Unexpected error") current_time
    ((false, 0, "Unexpected error"), w)

/-- The cache lookup and freshness test of `check_username_availability`
(roblox_api.py lines 586-590), then the main body. -/
def checkMain (username : String) (w : World) : (Bool × Int × String) × World :=
  let current_time := (drawClock w).1
  let w := (drawClock w).2
  match cacheFind w username with
  | some entry =>
    if current_time - entry.2 < MEMORY_CACHE_EXPIRY then (entry.1, w)
    else checkMain2 username current_time w
  | none => checkMain2 username current_time w

/-- `check_username_availability` (roblox_api.py lines 560-741). -/
def check_username_availability (username : String) (w : World) :
    (Bool × Int × String) × World :=
  if w.o.dbCooldown username then
    match w.o.dbStatus username with
    | some st => (st, w)
    | none => checkMain username w
  else checkMain username w

/-- The initial `API_ENDPOINTS` table (roblox_api.py lines 60-115):
delays 0.5, 0.5, 0.6, 0.7; all counters zero; all endpoints enabled. -/
def initEndpoints : List Endpoint :=
  [{ delay := 5 / 10, rate_limit_count := 0, last_request := 0,
     success_streak := 0, enabled := true, headers_index := 0 },
   { delay := 5 / 10, rate_limit_count := 0, last_request := 0,
     success_streak := 0, enabled := true, headers_index := 1 },
   { delay := 6 / 10, rate_limit_count := 0, last_request := 0,
     success_streak := 0, enabled := true, headers_index := 2 },
   { delay := 7 / 10, rate_limit_count := 0, last_request := 0,
     success_streak := 0, enabled := true, headers_index := 3 }]

/-- A fresh module state over a given oracle. -/
def mkWorld (o : Oracle) : World :=
  { endpoints := initEndpoints, current_api_index := 0, memory_cache := [],
    adaptive := initALState [] 0, netCalls := 0, clockCalls := 0, o := o }

/-- Collaborators that always fail at the transport level: every request
errors (status -1), the database has no connection (cooldown false, no
stored status), the clock is frozen. -/
def oracleFail : Oracle :=
  { net := fun _ => { status := -1, body := none },
    dbCooldown := fun _ => false,
    dbStatus := fun _ => none,
    clock := fun _ => 0 }

/-- Collaborators whose database holds every username in cooldown with a
stored outcome. -/
def oracleDb : Oracle :=
  { net := fun _ => { status := -1, body := none },
    dbCooldown := fun _ => true,
    dbStatus := fun _ => some (true, 200, "Username is available"),
    clock := fun _ => 0 }

/-- Claim C8: when `is_username_in_cooldown` answers true and
`get_username_status` returns a stored row, `check_username_availability`
returns the stored (is_available, status_code, message) triple unchanged
and performs zero network calls (the world, and with it the request
counter, is untouched). -/
theorem claim_C8 (username : String) (w : World) (t : Bool × Int × String)
    (hcd : w.o.dbCooldown username = true)
    (hst : w.o.dbStatus username = some t) :
    check_username_availability username w = (t, w) ∧
      (check_username_availability username w).2.netCalls = w.netCalls := by
  rw [check_username_availability, if_pos hcd, hst]
  exact ⟨rfl, rfl⟩

/-- Witness for C8: a concrete world whose database holds the checked
name. -/
theorem claim_C8_witness :
    check_username_availability "alice" (mkWorld oracleDb) =
        ((true, 200, "Username is available"), mkWorld oracleDb) ∧
      (check_username_availability "alice" (mkWorld oracleDb)).2.netCalls =
        (mkWorld oracleDb).netCalls :=
  claim_C8 "alice" (mkWorld oracleDb) (true, 200, "Username is available") rfl rfl

/-- `update_api_delays` acts entrywise. -/
theorem epAt_update_api_delays (w : World) (i : Nat)
    (hi : i < w.endpoints.length) :
    epAt (update_api_delays w) i = updateEndpointDelay (epAt w i) := by
  rw [update_api_delays, epAt, epAt]
  dsimp only
  rw [List.getD_eq_getElem _ _ (by simpa using hi), List.getD_eq_getElem _ _ hi]
  exact List.getElem_map _

/-- Claim C7 (corrected): `update_api_delays` sets the delay of an
endpoint with a positive rate-limit count to
min(5.0, 0.5 + 0.5 * rate_limit_count); the gradual decrease by 0.1
(floored at 0.2) together with the streak reset happens only when the
endpoint has a success streak of at least 10 AND its rate-limit count is
zero — the `elif` makes the rate-limit branch take priority, so a
once-rate-limited endpoint never recovers its delay through success
streaks (its counter is only ever reset by the all-disabled fallback). -/
theorem claim_C7 (w : World) (i : Nat) (hi : i < w.endpoints.length) :
    ((epAt w i).rate_limit_count > 0 →
        (epAt (update_api_delays w) i).delay =
          min 5 (1 / 2 + ((epAt w i).rate_limit_count : Rat) * (1 / 2))) ∧
      ((epAt w i).rate_limit_count ≤ 0 → (epAt w i).success_streak ≥ 10 →
        (epAt (update_api_delays w) i).delay =
            max (2 / 10) ((epAt w i).delay - 1 / 10) ∧
          (epAt (update_api_delays w) i).success_streak = 0) := by
  rw [epAt_update_api_delays w i hi]
  constructor
  · intro h
    rw [updateEndpointDelay, if_pos h]
  · intro h1 h2
    rw [updateEndpointDelay, if_neg (by omega), if_pos h2]
    exact ⟨rfl, rfl⟩

/-- The endpoint state behind the C7 counterexample: one past rate limit
(count 1), a success streak of 10, delay 1.0. -/
def epC7 : Endpoint :=
  { delay := 1, rate_limit_count := 1, last_request := 0,
    success_streak := 10, enabled := true, headers_index := 0 }

/-- A two-endpoint world exercising both branches of C7: endpoint 0 is
`epC7`, endpoint 1 has a clean rate-limit count and a streak of 10. -/
def worldC7 : World :=
  { endpoints :=
      [epC7,
       { delay := 1, rate_limit_count := 0, last_request := 0,
         success_streak := 10, enabled := true, headers_index := 1 }],
    current_api_index := 0, memory_cache := [], adaptive := initALState [] 0,
    netCalls := 0, clockCalls := 0, o := oracleFail }

/-- Counterexample to C7 as stated: `epC7` has a success streak of 10,
yet `update_api_delays` neither decreases its delay by 0.1 nor resets its
streak — the rate-limit branch fires instead and re-derives the same
delay min(5, 0.5 + 0.5) = 1.0. -/
theorem claim_C7_counterexample :
    epC7.success_streak ≥ 10 ∧
      (updateEndpointDelay epC7).delay = epC7.delay ∧
      (updateEndpointDelay epC7).success_streak = 10 := by
  refine ⟨by decide, ?_, by decide⟩
  rw [updateEndpointDelay, if_pos (by decide : epC7.rate_limit_count > 0)]
  show min 5 (1 / 2 + ((1 : Int) : Rat) * (1 / 2)) = (1 : Rat)
  rw [show (1 / 2 + ((1 : Int) : Rat) * (1 / 2)) = 1 by norm_num]
  rw [min_eq_right (by norm_num : (1 : Rat) ≤ 5)]

/-- Witness for C7: both branches at the concrete world `worldC7`. -/
theorem claim_C7_witness :
    (epAt (update_api_delays worldC7) 0).delay =
        min 5 (1 / 2 + ((epAt worldC7 0).rate_limit_count : Rat) * (1 / 2)) ∧
      (epAt (update_api_delays worldC7) 1).delay =
          max (2 / 10) ((epAt worldC7 1).delay - 1 / 10) ∧
        (epAt (update_api_delays worldC7) 1).success_streak = 0 :=
  ⟨(claim_C7 worldC7 0 (by decide)).1 (by decide),
   (claim_C7 worldC7 1 (by decide)).2 (by decide) (by decide)⟩

/-- "Some endpoint is enabled", as the source's `any_enabled` scan
computes it. -/
def anyEnabled (w : World) : Bool := w.endpoints.any (fun ep => ep.enabled)

theorem any_of_getD_enabled (l : List Endpoint) (i : Nat)
    (h : (l.getD i default).enabled = true) :
    l.any (fun ep => ep.enabled) = true := by
  by_cases hi : i < l.length
  · rw [List.any_eq_true]
    refine ⟨l.getD i default, ?_, h⟩
    rw [List.getD_eq_getElem _ _ hi]
    exact List.getElem_mem _
  · rw [List.getD_eq_default _ _ (by omega)] at h
    exact absurd h (by decide)

theorem any_enabled_set (l : List Endpoint) (i : Nat) (e : Endpoint)
    (he : e.enabled = (l.getD i default).enabled)
    (h : l.any (fun ep => ep.enabled) = true) :
    (l.set i e).any (fun ep => ep.enabled) = true := by
  rw [List.any_eq_true] at h ⊢
  obtain ⟨x, hx, hxe⟩ := h
  obtain ⟨j, hj, hxj⟩ := List.mem_iff_getElem.mp hx
  by_cases hij : j = i
  · subst hij
    have hj' : j < (l.set j e).length := by simpa using hj
    refine ⟨e, List.mem_iff_getElem.mpr ⟨j, hj', List.getElem_set_self hj'⟩, ?_⟩
    rw [he, List.getD_eq_getElem _ _ hj, hxj]
    exact hxe
  · have hj' : j < (l.set i e).length := by simpa using hj
    refine ⟨x, List.mem_iff_getElem.mpr ⟨j, hj', ?_⟩, hxe⟩
    rw [List.getElem_set_ne (fun hh => hij hh.symm) _]
    exact hxj

theorem any_enabled_set_zero (l : List Endpoint) (e : Endpoint)
    (he : e.enabled = true) (hlen : 0 < l.length) :
    (l.set 0 e).any (fun ep => ep.enabled) = true := by
  rw [List.any_eq_true]
  have h0 : 0 < (l.set 0 e).length := by simpa using hlen
  exact ⟨e, List.mem_iff_getElem.mpr ⟨0, h0, List.getElem_set_self h0⟩, he⟩

theorem updateEndpointDelay_enabled (ep : Endpoint) :
    (updateEndpointDelay ep).enabled = ep.enabled := by
  rw [updateEndpointDelay]
  split_ifs <;> rfl

theorem any_enabled_map_update (l : List Endpoint)
    (h : l.any (fun ep => ep.enabled) = true) :
    (l.map updateEndpointDelay).any (fun ep => ep.enabled) = true := by
  rw [List.any_map]
  have he : ((fun ep => ep.enabled) ∘ updateEndpointDelay) =
      (fun ep : Endpoint => ep.enabled) := by
    funext ep
    exact updateEndpointDelay_enabled ep
  rw [he]
  exact h

theorem findEnabledFrom_enabled {w : World} {st idx : Nat}
    (h : findEnabledFrom w st = some idx) : (epAt w idx).enabled = true := by
  rw [findEnabledFrom] at h
  obtain ⟨i, hi, hsome⟩ := List.exists_of_findSome?_eq_some h
  split_ifs at hsome with he
  rw [Option.some.injEq] at hsome
  rw [← hsome]
  exact he

theorem anyEnabled_setEp (w : World) (i : Nat) (e : Endpoint)
    (he : e.enabled = (epAt w i).enabled) (h : anyEnabled w = true) :
    anyEnabled (setEp w i e) = true := by
  rw [anyEnabled, setEp]
  dsimp only
  exact any_enabled_set _ _ _ he h

theorem anyEnabled_cachePut (w : World) (u : String) (t : Bool × Int × String)
    (ts : Rat) : anyEnabled (cachePut w u t ts) = anyEnabled w := rfl

theorem anyEnabled_update_api_delays (w : World) (h : anyEnabled w = true) :
    anyEnabled (update_api_delays w) = true := by
  rw [anyEnabled, update_api_delays]
  dsimp only
  exact any_enabled_map_update _ h

theorem setEp_length (w : World) (i : Nat) (e : Endpoint) :
    (setEp w i e).endpoints.length = w.endpoints.length := by
  rw [setEp]
  dsimp only
  simp

theorem anyEnabled_disableAndEnsure (w : World) (i : Nat)
    (hlen : 0 < w.endpoints.length) :
    anyEnabled (disableAndEnsure w i) = true := by
  rw [disableAndEnsure]
  dsimp only
  by_cases h : (setEp w i { epAt w i with enabled := false }).endpoints.any
      (fun ep => ep.enabled) = true
  · rw [if_pos h]
    exact h
  · rw [if_neg h]
    rw [anyEnabled, setEp]
    dsimp only
    refine any_enabled_set_zero _ _ rfl ?_
    rw [setEp_length]
    exact hlen

theorem any_enabled_enable_block (w : World) (hlen : 0 < w.endpoints.length) :
    anyEnabled (if (epAt w w.current_api_index).enabled then w
      else match findEnabledFrom w w.current_api_index with
        | some idx => { w with current_api_index := idx }
        | none =>
          { setEp w 0 { epAt w 0 with enabled := true } with
            current_api_index := 0 }) = true := by
  by_cases h1 : (epAt w w.current_api_index).enabled = true
  · rw [if_pos h1]
    exact any_of_getD_enabled _ _ h1
  · rw [if_neg h1]
    cases hf : findEnabledFrom w w.current_api_index with
    | some idx =>
      exact any_of_getD_enabled _ idx (findEnabledFrom_enabled hf)
    | none =>
      rw [anyEnabled]
      dsimp only [setEp]
      exact any_enabled_set_zero _ _ rfl hlen

theorem anyEnabled_select (w : World) (hlen : 0 < w.endpoints.length) :
    anyEnabled (select_next_api w).2 = true := by
  rw [select_next_api]
  dsimp only
  by_cases h1 : (epAt (drawClock w).2 (drawClock w).2.current_api_index).enabled = true
  · rw [if_pos h1]
    have hany : anyEnabled (drawClock w).2 = true := any_of_getD_enabled _ _ h1
    split
    · exact hany
    · split <;> exact hany
  · rw [if_neg h1]
    cases hf : findEnabledFrom (drawClock w).2 (drawClock w).2.current_api_index with
    | some idx =>
      dsimp only
      have hany : anyEnabled { (drawClock w).2 with current_api_index := idx } = true :=
        any_of_getD_enabled _ idx (findEnabledFrom_enabled hf)
      split
      · exact hany
      · split <;> exact hany
    | none =>
      dsimp only
      have hany : anyEnabled { setEp (drawClock w).2 0
          { epAt (drawClock w).2 0 with enabled := true } with
          current_api_index := 0 } = true := by
        rw [anyEnabled]
        dsimp only [setEp]
        exact any_enabled_set_zero _ _ rfl hlen
      split
      · exact hany
      · split <;> exact hany

theorem select_next_api_length (w : World) :
    (select_next_api w).2.endpoints.length = w.endpoints.length := by
  rw [select_next_api]
  dsimp only
  by_cases h1 : (epAt (drawClock w).2 (drawClock w).2.current_api_index).enabled = true
  · rw [if_pos h1]
    split
    · rfl
    · split <;> rfl
  · rw [if_neg h1]
    cases hf : findEnabledFrom (drawClock w).2 (drawClock w).2.current_api_index with
    | some idx =>
      dsimp only
      split
      · rfl
      · split <;> rfl
    | none =>
      dsimp only
      split
      · exact setEp_length _ _ _
      · split <;> exact setEp_length _ _ _

theorem anyEnabled_checkSpecificTry (u : String) (i : Nat) (ct : Rat) (w : World)
    (hpre : anyEnabled w = true) :
    (∀ r, checkSpecificTry u i ct w = Except.ok r → anyEnabled r.2 = true) ∧
      (∀ we, checkSpecificTry u i ct w = Except.error we → anyEnabled we = true) := by
  rw [checkSpecificTry]
  dsimp only
  by_cases h429 : ((make_http_request w).1).status = 429
  · rw [if_pos h429]
    constructor
    · intro r hr
      rw [Except.ok.injEq] at hr
      subst hr
      dsimp only
      rw [anyEnabled_cachePut]
      exact anyEnabled_update_api_delays _ (anyEnabled_setEp _ _ _ rfl hpre)
    · intro we hwe
      exact Except.noConfusion hwe
  · rw [if_neg h429]
    cases hb : ((make_http_request w).1).body with
    | none =>
      dsimp only
      constructor
      · intro r hr
        rw [Except.ok.injEq] at hr
        subst hr
        dsimp only
        rw [anyEnabled_cachePut]
        exact anyEnabled_setEp _ _ _ rfl hpre
      · intro we hwe
        exact Except.noConfusion hwe
    | some data =>
      dsimp only
      by_cases h200 : ((make_http_request w).1).status = 200
      · rw [if_pos h200]
        cases hp : process200 data with
        | error e =>
          constructor
          · intro r hr
            exact Except.noConfusion hr
          · intro we hwe
            rw [Except.error.injEq] at hwe
            subst hwe
            exact anyEnabled_setEp _ _ _ rfl hpre
        | ok pr =>
          constructor
          · intro r hr
            rw [Except.ok.injEq] at hr
            subst hr
            dsimp only
            rw [anyEnabled_cachePut]
            exact anyEnabled_setEp _ _ _ rfl hpre
          · intro we hwe
            exact Except.noConfusion hwe
      · rw [if_neg h200]
        constructor
        · intro r hr
          rw [Except.ok.injEq] at hr
          subst hr
          dsimp only
          rw [anyEnabled_cachePut]
          exact anyEnabled_setEp _ _ _ rfl hpre
        · intro we hwe
          exact Except.noConfusion hwe

theorem anyEnabled_checkSpecificMain (u : String) (i : Nat) (w : World)
    (hpre : anyEnabled w = true) :
    anyEnabled (checkSpecificMain u i w).2 = true := by
  rw [checkSpecificMain]
  dsimp only
  split
  · rename_i r heq
    refine (anyEnabled_checkSpecificTry _ _ _ _ ?_).1 _ heq
    exact anyEnabled_setEp _ _ _ rfl hpre
  · rename_i we heq
    dsimp only
    rw [anyEnabled_cachePut]
    refine anyEnabled_setEp _ _ _ rfl ?_
    refine (anyEnabled_checkSpecificTry _ _ _ _ ?_).2 _ heq
    exact anyEnabled_setEp _ _ _ rfl hpre

theorem anyEnabled_specific (u : String) (i : Nat) (w : World)
    (hpre : anyEnabled w = true) :
    anyEnabled (check_with_specific_api u i w).2 = true := by
  rw [check_with_specific_api]
  by_cases hcd : w.o.dbCooldown u = true
  · rw [if_pos hcd]
    cases hst : w.o.dbStatus u with
    | some st => exact hpre
    | none => exact anyEnabled_checkSpecificMain u i w hpre
  · rw [if_neg hcd]
    exact anyEnabled_checkSpecificMain u i w hpre

theorem anyEnabled_recordCheckAdaptive (w : World) (u : String) (ia err : Bool) :
    anyEnabled (recordCheckAdaptive w u ia err) = anyEnabled w := rfl

theorem anyEnabled_adaptWorld (w : World) :
    anyEnabled (adaptWorld w) = anyEnabled w := rfl

theorem anyEnabled_checkMainTry (u : String) (i : Nat) (ct : Rat) (w : World)
    (hpre : anyEnabled w = true) (hlen : 0 < w.endpoints.length) :
    (∀ r, checkMainTry u i ct w = Except.ok r → anyEnabled r.2 = true) ∧
      (∀ we, checkMainTry u i ct w = Except.error we → anyEnabled we = true) := by
  rw [checkMainTry]
  dsimp only
  by_cases h429 : ((make_http_request w).1).status = 429
  · rw [if_pos h429]
    constructor
    · intro r hr
      rw [Except.ok.injEq] at hr
      subst hr
      refine anyEnabled_specific _ _ _ ?_
      exact anyEnabled_update_api_delays _ (anyEnabled_setEp _ _ _ rfl hpre)
    · intro we hwe
      exact Except.noConfusion hwe
  · rw [if_neg h429]
    by_cases hm1 : ((make_http_request w).1).status = -1
    · rw [if_pos hm1]
      constructor
      · intro r hr
        split at hr
        · rename_i alt heq
          rw [Except.ok.injEq] at hr
          subst hr
          refine anyEnabled_specific _ _ _ ?_
          split
          · refine anyEnabled_disableAndEnsure _ _ ?_
            rw [setEp_length]
            exact hlen
          · exact anyEnabled_setEp _ _ _ rfl hpre
        · rename_i heq
          rw [Except.ok.injEq] at hr
          subst hr
          dsimp only
          rw [anyEnabled_cachePut]
          split
          · refine anyEnabled_disableAndEnsure _ _ ?_
            rw [setEp_length]
            exact hlen
          · exact anyEnabled_setEp _ _ _ rfl hpre
      · intro we hwe
        split at hwe
        · exact Except.noConfusion hwe
        · exact Except.noConfusion hwe
    · rw [if_neg hm1]
      cases hb : ((make_http_request w).1).body with
      | none =>
        dsimp only
        constructor
        · intro r hr
          rw [Except.ok.injEq] at hr
          subst hr
          dsimp only
          rw [anyEnabled_recordCheckAdaptive, anyEnabled_cachePut]
          exact anyEnabled_setEp _ _ _ rfl hpre
        · intro we hwe
          exact Except.noConfusion hwe
      | some data =>
        dsimp only
        by_cases h200 : ((make_http_request w).1).status = 200
        · rw [if_pos h200]
          cases hp : process200 data with
          | error e =>
            constructor
            · intro r hr
              exact Except.noConfusion hr
            · intro we hwe
              rw [Except.error.injEq] at hwe
              subst hwe
              exact anyEnabled_setEp _ _ _ rfl hpre
          | ok pr =>
            constructor
            · intro r hr
              rw [Except.ok.injEq] at hr
              subst hr
              dsimp only
              split
              · rw [anyEnabled_adaptWorld]
                refine anyEnabled_update_api_delays _ ?_
                rw [anyEnabled_recordCheckAdaptive, anyEnabled_cachePut]
                exact anyEnabled_setEp _ _ _ rfl hpre
              · rw [anyEnabled_recordCheckAdaptive, anyEnabled_cachePut]
                exact anyEnabled_setEp _ _ _ rfl hpre
            · intro we hwe
              exact Except.noConfusion hwe
        · rw [if_neg h200]
          constructor
          · intro r hr
            rw [Except.ok.injEq] at hr
            subst hr
            dsimp only
            rw [anyEnabled_cachePut]
            exact anyEnabled_setEp _ _ _ rfl hpre
          · intro we hwe
            exact Except.noConfusion hwe

theorem anyEnabled_checkMain2 (u : String) (ct : Rat) (w : World)
    (hlen : 0 < w.endpoints.length) :
    anyEnabled (checkMain2 u ct w).2 = true := by
  rw [checkMain2]
  dsimp only
  have hsel : anyEnabled (select_next_api w).2 = true := anyEnabled_select w hlen
  have hlen1 : 0 < (select_next_api w).2.endpoints.length := by
    rw [select_next_api_length]
    exact hlen
  split
  · rename_i r heq
    refine (anyEnabled_checkMainTry _ _ _ _ ?_ ?_).1 _ heq
    · exact anyEnabled_setEp _ _ _ rfl hsel
    · rw [setEp_length]
      exact hlen1
  · rename_i we heq
    dsimp only
    rw [anyEnabled_cachePut]
    refine anyEnabled_setEp _ _ _ rfl ?_
    refine (anyEnabled_checkMainTry _ _ _ _ ?_ ?_).2 _ heq
    · exact anyEnabled_setEp _ _ _ rfl hsel
    · rw [setEp_length]
      exact hlen1

theorem anyEnabled_checkMain (u : String) (w : World)
    (hpre : anyEnabled w = true) (hlen : 0 < w.endpoints.length) :
    anyEnabled (checkMain u w).2 = true := by
  rw [checkMain]
  split
  · rename_i entry heq
    split
    · exact hpre
    · exact anyEnabled_checkMain2 u _ _ hlen
  · exact anyEnabled_checkMain2 u _ _ hlen

/-- Single-endpoint worlds for exercising the C4 fallback: only endpoint 1
of four is enabled, so disabling it empties the table. -/
def worldC4 : World :=
  { mkWorld oracleFail with
    endpoints :=
      [{ delay := 5 / 10, rate_limit_count := 3, last_request := 0,
         success_streak := 0, enabled := false, headers_index := 0 },
       { delay := 5 / 10, rate_limit_count := 0, last_request := 0,
         success_streak := 0, enabled := true, headers_index := 1 },
       { delay := 6 / 10, rate_limit_count := 0, last_request := 0,
         success_streak := 0, enabled := false, headers_index := 2 },
       { delay := 7 / 10, rate_limit_count := 0, last_request := 0,
         success_streak := 0, enabled := false, headers_index := 3 }] }

/-- Claim C4: (1) after every `select_next_api` call some endpoint is
enabled; (2)-(3) the two check functions preserve this (their disable
blocks immediately re-enable endpoint 0 if the table would empty);
(4) the disable-and-ensure block: if disabling endpoint `i` leaves no
endpoint enabled, endpoint 0 comes back enabled with its rate-limit
counter reset to 0. -/
theorem claim_C4 :
    (∀ w : World, 0 < w.endpoints.length →
        anyEnabled (select_next_api w).2 = true) ∧
      (∀ (u : String) (w : World), anyEnabled w = true →
          0 < w.endpoints.length →
          anyEnabled (check_username_availability u w).2 = true) ∧
      (∀ (u : String) (i : Nat) (w : World), anyEnabled w = true →
          anyEnabled (check_with_specific_api u i w).2 = true) ∧
      (∀ (w : World) (i : Nat), 0 < w.endpoints.length →
          (setEp w i { epAt w i with enabled := false }).endpoints.any
              (fun ep => ep.enabled) = false →
          (epAt (disableAndEnsure w i) 0).enabled = true ∧
            (epAt (disableAndEnsure w i) 0).rate_limit_count = 0) := by
  refine ⟨anyEnabled_select, ?_, anyEnabled_specific, ?_⟩
  · intro u w hpre hlen
    rw [check_username_availability]
    by_cases hcd : w.o.dbCooldown u = true
    · rw [if_pos hcd]
      cases hst : w.o.dbStatus u with
      | some st => exact hpre
      | none => exact anyEnabled_checkMain u w hpre hlen
    · rw [if_neg hcd]
      exact anyEnabled_checkMain u w hpre hlen
  · intro w i hlen hall
    have h0 : 0 < (setEp w i { epAt w i with enabled := false }).endpoints.length := by
      rw [setEp_length]
      exact hlen
    rw [disableAndEnsure]
    dsimp only
    rw [if_neg (by rw [hall]; exact Bool.false_ne_true)]
    rw [epAt, setEp]
    dsimp only
    rw [getD_set_eq_of_lt _ _ _ _ h0]
    exact ⟨rfl, rfl⟩

/-- Witness for C4: the four parts at concrete worlds (collaborators that
always fail at the transport level, and the one-enabled-endpoint world
for the fallback part). -/
theorem claim_C4_witness :
    anyEnabled (select_next_api (mkWorld oracleFail)).2 = true ∧
      anyEnabled (check_username_availability "bob" (mkWorld oracleFail)).2 = true ∧
      anyEnabled (check_with_specific_api "bob" 1 (mkWorld oracleFail)).2 = true ∧
      ((epAt (disableAndEnsure worldC4 1) 0).enabled = true ∧
        (epAt (disableAndEnsure worldC4 1) 0).rate_limit_count = 0) :=
  ⟨claim_C4.1 _ (by decide),
   claim_C4.2.1 "bob" _ (by decide) (by decide),
   claim_C4.2.2.1 "bob" 1 _ (by decide),
   claim_C4.2.2.2 worldC4 1 (by decide) (by decide)⟩

theorem drawClock_o (w : World) : ((drawClock w).2).o = w.o := rfl

theorem make_http_request_o (w : World) : ((make_http_request w).2).o = w.o := rfl

theorem setEp_o (w : World) (i : Nat) (e : Endpoint) : (setEp w i e).o = w.o := rfl

theorem cachePut_o (w : World) (u : String) (t : Bool × Int × String) (ts : Rat) :
    (cachePut w u t ts).o = w.o := rfl

theorem update_api_delays_o (w : World) : (update_api_delays w).o = w.o := rfl

theorem disableAndEnsure_o (w : World) (i : Nat) :
    (disableAndEnsure w i).o = w.o := by
  rw [disableAndEnsure]
  dsimp only
  split <;> rfl

theorem select_next_api_o (w : World) : ((select_next_api w).2).o = w.o := by
  rw [select_next_api]
  dsimp only
  by_cases h1 : (epAt (drawClock w).2 (drawClock w).2.current_api_index).enabled = true
  · rw [if_pos h1]
    split
    · rfl
    · split <;> rfl
  · rw [if_neg h1]
    cases hf : findEnabledFrom (drawClock w).2 (drawClock w).2.current_api_index with
    | some idx =>
      dsimp only
      split
      · rfl
      · split <;> rfl
    | none =>
      dsimp only
      split
      · rfl
      · split <;> rfl

/-- With every network outcome a transport failure, the fallback
checker's try-block always succeeds with `(False, -1, message)`. -/
theorem checkSpecificTry_transport (u : String) (i : Nat) (ct : Rat) (w : World)
    (hnet : ∀ k, (w.o.net k).status = -1) :
    (∀ r, checkSpecificTry u i ct w = Except.ok r →
        r.1.1 = false ∧ r.1.2.1 = -1) ∧
      (∀ we, checkSpecificTry u i ct w = Except.error we → False) := by
  have hs : ((make_http_request w).1).status = -1 := hnet w.netCalls
  rw [checkSpecificTry]
  dsimp only
  rw [if_neg (by rw [hs]; decide)]
  cases hb : ((make_http_request w).1).body with
  | none =>
    dsimp only
    constructor
    · intro r hr
      rw [Except.ok.injEq] at hr
      subst hr
      exact ⟨rfl, hs⟩
    · intro we hwe
      exact Except.noConfusion hwe
  | some data =>
    dsimp only
    rw [if_neg (by rw [hs]; decide)]
    constructor
    · intro r hr
      rw [Except.ok.injEq] at hr
      subst hr
      exact ⟨rfl, hs⟩
    · intro we hwe
      exact Except.noConfusion hwe

/-- With a cooldown-free database and all-transport-failure network,
`check_with_specific_api` returns not-available with the -1 sentinel. -/
theorem check_with_specific_api_transport (u : String) (i : Nat) (w : World)
    (hdb : w.o.dbCooldown u = false)
    (hnet : ∀ k, (w.o.net k).status = -1) :
    (check_with_specific_api u i w).1.1 = false ∧
      (check_with_specific_api u i w).1.2.1 = -1 := by
  rw [check_with_specific_api, if_neg (by rw [hdb]; exact Bool.false_ne_true)]
  rw [checkSpecificMain]
  dsimp only
  split
  · rename_i r heq
    refine (checkSpecificTry_transport _ _ _ _ ?_).1 _ heq
    intro k
    rw [setEp_o, drawClock_o, drawClock_o]
    exact hnet k
  · rename_i we heq
    refine ((checkSpecificTry_transport _ _ _ _ ?_).2 _ heq).elim
    intro k
    rw [setEp_o, drawClock_o, drawClock_o]
    exact hnet k

/-- With a cooldown-free database and all-transport-failure network, the
main try-block of `check_username_availability` always succeeds with
`(False, -1, message)` (via the fallback endpoint when one is enabled). -/
theorem checkMainTry_transport (u : String) (i : Nat) (ct : Rat) (w : World)
    (hdb : w.o.dbCooldown u = false)
    (hnet : ∀ k, (w.o.net k).status = -1) :
    (∀ r, checkMainTry u i ct w = Except.ok r →
        r.1.1 = false ∧ r.1.2.1 = -1) ∧
      (∀ we, checkMainTry u i ct w = Except.error we → False) := by
  have hs : ((make_http_request w).1).status = -1 := hnet w.netCalls
  rw [checkMainTry]
  dsimp only
  rw [if_neg (by rw [hs]; decide)]
  rw [if_pos hs]
  constructor
  · intro r hr
    split at hr
    · rename_i alt heq
      rw [Except.ok.injEq] at hr
      subst hr
      refine check_with_specific_api_transport u alt _ ?_ ?_
      · split
        · rw [disableAndEnsure_o, setEp_o, make_http_request_o]
          exact hdb
        · rw [setEp_o, make_http_request_o]
          exact hdb
      · intro k
        split
        · rw [disableAndEnsure_o, setEp_o, make_http_request_o]
          exact hnet k
        · rw [setEp_o, make_http_request_o]
          exact hnet k
    · rename_i heq
      rw [Except.ok.injEq] at hr
      subst hr
      exact ⟨rfl, hs⟩
  · intro we hwe
    split at hwe
    · exact Except.noConfusion hwe
    · exact Except.noConfusion hwe

/-- Claim C3: for every candidate and every behavior of the network and
datastore collaborators, `check_username_availability` returns a
well-formed (is_available, status_code, message) triple — the embedding
is total, every internal raise being absorbed by the source's handlers —
and when every network attempt fails at the transport level (the
-1 sentinel of `make_http_request`, which converts raised exceptions into
values), the outcome is not-available with the error-sentinel status -1
(hence in {0, -1}), not a propagated exception.  The database cooldown
answers false and the in-memory cache misses, so the outcome really comes
from the transport layer. -/
theorem claim_C3 (u : String) (w : World)
    (hdb : w.o.dbCooldown u = false)
    (hcache : cacheFind w u = none)
    (hnet : ∀ k, (w.o.net k).status = -1) :
    (∃ t w2, check_username_availability u w = (t, w2)) ∧
      (check_username_availability u w).1.1 = false ∧
      ((check_username_availability u w).1.2.1 = -1 ∨
        (check_username_availability u w).1.2.1 = 0) := by
  refine ⟨⟨_, _, rfl⟩, ?_⟩
  rw [check_username_availability, if_neg (by rw [hdb]; exact Bool.false_ne_true)]
  rw [checkMain]
  have hc1 : cacheFind (drawClock w).2 u = none := hcache
  rw [hc1]
  dsimp only
  rw [checkMain2]
  dsimp only
  split
  · rename_i r heq
    refine And.imp id Or.inl ((checkMainTry_transport _ _ _ _ ?_ ?_).1 _ heq)
    · rw [setEp_o, select_next_api_o, drawClock_o]
      exact hdb
    · intro k
      rw [setEp_o, select_next_api_o, drawClock_o]
      exact hnet k
  · rename_i we heq
    refine ((checkMainTry_transport _ _ _ _ ?_ ?_).2 _ heq).elim
    · rw [setEp_o, select_next_api_o, drawClock_o]
      exact hdb
    · intro k
      rw [setEp_o, select_next_api_o, drawClock_o]
      exact hnet k

/-- Witness for C3 at a concrete world whose collaborators always fail. -/
theorem claim_C3_witness :
    (∃ t w2, check_username_availability "carol" (mkWorld oracleFail) = (t, w2)) ∧
      (check_username_availability "carol" (mkWorld oracleFail)).1.1 = false ∧
      ((check_username_availability "carol" (mkWorld oracleFail)).1.2.1 = -1 ∨
        (check_username_availability "carol" (mkWorld oracleFail)).1.2.1 = 0) :=
  claim_C3 "carol" (mkWorld oracleFail) rfl rfl (fun _ => rfl)

/-- If the shared 200-handler reports available, the JSON test
`'code' in data and data['code'] == 0` evaluated to true. -/
theorem process200_avail (data : Json) (pr : Bool × String)
    (hp : process200 data = Except.ok pr) (ht : pr.1 = true) :
    codeIsZero data = Except.ok true := by
  rw [process200] at hp
  cases hz : codeIsZero data with
  | error e =>
    rw [hz] at hp
    exact Except.noConfusion hp
  | ok z =>
    rw [hz] at hp
    dsimp only at hp
    by_cases hzz : z = true
    · rw [hzz]
    · rw [if_neg hzz] at hp
      cases hg1 : pyGet data "code" (Json.str "unknown") with
      | error e =>
        rw [hg1] at hp
        exact Except.noConfusion hp
      | ok v1 =>
        rw [hg1] at hp
        cases hg2 : pyGet data "message" (Json.str "Unknown reason") with
        | error e =>
          rw [hg2] at hp
          exact Except.noConfusion hp
        | ok v2 =>
          rw [hg2] at hp
          rw [Except.ok.injEq] at hp
          rw [← hp] at ht
          exact absurd ht (by decide)

/-- The fallback try-block: it consumes exactly one network outcome, and
reports available only if that outcome had status 200 and a JSON body
with `code == 0`. -/
theorem checkSpecificTry_avail (u : String) (i : Nat) (ct : Rat) (w : World) :
    ∀ r, checkSpecificTry u i ct w = Except.ok r →
      r.2.netCalls = w.netCalls + 1 ∧
        (r.1.1 = true →
          (w.o.net w.netCalls).status = 200 ∧
            ∃ data, (w.o.net w.netCalls).body = some data ∧
              codeIsZero data = Except.ok true) := by
  rw [checkSpecificTry]
  dsimp only
  by_cases h429 : ((make_http_request w).1).status = 429
  · rw [if_pos h429]
    intro r hr
    rw [Except.ok.injEq] at hr
    subst hr
    exact ⟨rfl, fun hav => Bool.noConfusion hav⟩
  · rw [if_neg h429]
    cases hb : ((make_http_request w).1).body with
    | none =>
      dsimp only
      intro r hr
      rw [Except.ok.injEq] at hr
      subst hr
      exact ⟨rfl, fun hav => Bool.noConfusion hav⟩
    | some data =>
      dsimp only
      by_cases h200 : ((make_http_request w).1).status = 200
      · rw [if_pos h200]
        cases hp : process200 data with
        | error e =>
          intro r hr
          exact Except.noConfusion hr
        | ok pr =>
          intro r hr
          rw [Except.ok.injEq] at hr
          subst hr
          refine ⟨rfl, fun hav => ⟨h200, data, hb, ?_⟩⟩
          exact process200_avail data pr hp hav
      · rw [if_neg h200]
        intro r hr
        rw [Except.ok.injEq] at hr
        subst hr
        exact ⟨rfl, fun hav => Bool.noConfusion hav⟩

/-- The fallback checker reports available only on a 200 response whose
body parses with `code == 0`; the deciding response is the last one
consumed. -/
theorem specific_avail_rel (u : String) (i : Nat) (w' : World) (o0 : Oracle)
    (ho : w'.o = o0) (hdb : o0.dbCooldown u = false) :
    (check_with_specific_api u i w').1.1 = true →
      (o0.net ((check_with_specific_api u i w').2.netCalls - 1)).status = 200 ∧
        ∃ data,
          (o0.net ((check_with_specific_api u i w').2.netCalls - 1)).body =
              some data ∧
            codeIsZero data = Except.ok true := by
  rw [check_with_specific_api,
    if_neg (by rw [ho, hdb]; exact Bool.false_ne_true)]
  rw [checkSpecificMain]
  dsimp only
  split
  · rename_i r heq
    intro hav
    obtain ⟨hn, hrest⟩ := checkSpecificTry_avail u i _ _ r heq
    obtain ⟨hs, data, hb, hz⟩ := hrest hav
    rw [hn, ← ho]
    exact ⟨hs, data, hb, hz⟩
  · rename_i we heq
    intro hav
    exact Bool.noConfusion hav

/-- The main try-block: any available outcome traces back to a last
network response with status 200 and a `code == 0` JSON body, whether it
came from the chosen endpoint or from the fallback checker it delegates
to on rate limits and transport errors. -/
theorem checkMainTry_avail_rel (u : String) (i : Nat) (ct : Rat) (w' : World)
    (o0 : Oracle) (ho : w'.o = o0) (hdb : o0.dbCooldown u = false) :
    ∀ r, checkMainTry u i ct w' = Except.ok r → r.1.1 = true →
      (o0.net (r.2.netCalls - 1)).status = 200 ∧
        ∃ data, (o0.net (r.2.netCalls - 1)).body = some data ∧
          codeIsZero data = Except.ok true := by
  rw [checkMainTry]
  dsimp only
  by_cases h429 : ((make_http_request w').1).status = 429
  · rw [if_pos h429]
    intro r hr
    rw [Except.ok.injEq] at hr
    subst hr
    refine specific_avail_rel u _ _ o0 ?_ hdb
    rw [update_api_delays_o, setEp_o, make_http_request_o]
    exact ho
  · rw [if_neg h429]
    by_cases hm1 : ((make_http_request w').1).status = -1
    · rw [if_pos hm1]
      intro r hr
      split at hr
      · rename_i alt heq
        rw [Except.ok.injEq] at hr
        subst hr
        refine specific_avail_rel u _ _ o0 ?_ hdb
        split
        · rw [disableAndEnsure_o, setEp_o, make_http_request_o]
          exact ho
        · rw [setEp_o, make_http_request_o]
          exact ho
      · rename_i heq
        rw [Except.ok.injEq] at hr
        subst hr
        intro hav
        exact Bool.noConfusion hav
    · rw [if_neg hm1]
      cases hb : ((make_http_request w').1).body with
      | none =>
        dsimp only
        intro r hr
        rw [Except.ok.injEq] at hr
        subst hr
        intro hav
        exact Bool.noConfusion hav
      | some data =>
        dsimp only
        by_cases h200 : ((make_http_request w').1).status = 200
        · rw [if_pos h200]
          cases hp : process200 data with
          | error e =>
            intro r hr
            exact Except.noConfusion hr
          | ok pr =>
            intro r hr
            rw [Except.ok.injEq] at hr
            subst hr
            intro hav
            have hs0 : (o0.net w'.netCalls).status = 200 := by
              rw [← ho]
              exact h200
            have hb0 : (o0.net w'.netCalls).body = some data := by
              rw [← ho]
              exact hb
            have hz := process200_avail data pr hp hav
            dsimp only
            split
            · exact ⟨hs0, data, hb0, hz⟩
            · exact ⟨hs0, data, hb0, hz⟩
        · rw [if_neg h200]
          intro r hr
          rw [Except.ok.injEq] at hr
          subst hr
          intro hav
          exact Bool.noConfusion hav

/-- Claim C10: on every path of `check_username_availability` that
reaches the network (the database cooldown misses and the in-memory cache
misses), a returned `is_available = true` can only come from a response
whose HTTP status is 200 and whose JSON body contains `code == 0`: the
last network outcome consumed decides.  Contrapositively, every
rate-limited, non-200, malformed-JSON, transport-failure or exception
path returns `is_available = false`. -/
theorem claim_C10 (u : String) (w : World)
    (hdb : w.o.dbCooldown u = false)
    (hcache : cacheFind w u = none) :
    (check_username_availability u w).1.1 = true →
      (w.o.net ((check_username_availability u w).2.netCalls - 1)).status = 200 ∧
        ∃ data,
          (w.o.net ((check_username_availability u w).2.netCalls - 1)).body =
              some data ∧
            codeIsZero data = Except.ok true := by
  rw [check_username_availability,
    if_neg (by rw [hdb]; exact Bool.false_ne_true)]
  rw [checkMain]
  have hc1 : cacheFind (drawClock w).2 u = none := hcache
  rw [hc1]
  dsimp only
  rw [checkMain2]
  dsimp only
  split
  · rename_i r heq
    refine checkMainTry_avail_rel u _ _ _ w.o ?_ hdb _ heq
    rw [setEp_o, select_next_api_o, drawClock_o]
  · rename_i we heq
    intro hav
    exact Bool.noConfusion hav

/-- Collaborators whose network always answers 200 with an available
body. -/
def oracleOk : Oracle :=
  { net := fun _ =>
      { status := 200, body := some (Json.obj [("code", Json.num 0)]) },
    dbCooldown := fun _ => false,
    dbStatus := fun _ => none,
    clock := fun _ => 0 }

/-- With every network outcome a 200 response whose body is
`{"code": 0}`, the main try-block always reports available. -/
theorem checkMainTry_ok200 (u : String) (i : Nat) (ct : Rat) (w : World)
    (hnet : ∀ k, w.o.net k =
      { status := 200, body := some (Json.obj [("code", Json.num 0)]) }) :
    (∀ r, checkMainTry u i ct w = Except.ok r → r.1.1 = true) ∧
      (∀ we, checkMainTry u i ct w = Except.error we → False) := by
  have hs : (make_http_request w).1 =
      { status := 200, body := some (Json.obj [("code", Json.num 0)]) } :=
    hnet w.netCalls
  rw [checkMainTry]
  dsimp only
  rw [if_neg (by rw [hs]; decide)]
  rw [if_neg (by rw [hs]; decide)]
  rw [hs]
  dsimp only
  rw [if_pos rfl]
  rw [show process200 (Json.obj [("code", Json.num 0)]) =
    Except.ok (true, "Username is available") from rfl]
  dsimp only
  constructor
  · intro r hr
    rw [Except.ok.injEq] at hr
    subst hr
    rfl
  · intro we hwe
    exact Except.noConfusion hwe

/-- Over the always-succeeding collaborators, the checker reports
available (cooldown and cache both missing). -/
theorem check_avail_ok (u : String) (w : World)
    (hdb : w.o.dbCooldown u = false)
    (hcache : cacheFind w u = none)
    (hnet : ∀ k, w.o.net k =
      { status := 200, body := some (Json.obj [("code", Json.num 0)]) }) :
    (check_username_availability u w).1.1 = true := by
  rw [check_username_availability,
    if_neg (by rw [hdb]; exact Bool.false_ne_true)]
  rw [checkMain]
  have hc1 : cacheFind (drawClock w).2 u = none := hcache
  rw [hc1]
  dsimp only
  rw [checkMain2]
  dsimp only
  split
  · rename_i r heq
    refine (checkMainTry_ok200 _ _ _ _ ?_).1 _ heq
    intro k
    rw [setEp_o, select_next_api_o, drawClock_o]
    exact hnet k
  · rename_i we heq
    refine ((checkMainTry_ok200 u _ _ _ ?_).2 _ heq).elim
    intro k
    rw [setEp_o, select_next_api_o, drawClock_o]
    exact hnet k

/-- Witness for C10 at a concrete fresh world over the always-succeeding
collaborators: the call reports available, and indeed the deciding
response had status 200 and a `code == 0` body. -/
theorem claim_C10_witness :
    ((mkWorld oracleOk).o.net
          ((check_username_availability "dave" (mkWorld oracleOk)).2.netCalls -
            1)).status = 200 ∧
      ∃ data,
        ((mkWorld oracleOk).o.net
              ((check_username_availability "dave"
                    (mkWorld oracleOk)).2.netCalls - 1)).body = some data ∧
          codeIsZero data = Except.ok true :=
  claim_C10 "dave" (mkWorld oracleOk) rfl rfl
    (check_avail_ok "dave" (mkWorld oracleOk) rfl rfl (fun _ => rfl))

end Namite
